import Mathlib

/-!
Verification of the Kayton register-based bytecode virtual machine
(`src/vm/mod.rs`, `src/vm/registers.rs`, `src/vm/call.rs`,
`src/vm/bytecode_builder.rs`, `src/vm/print_bytecode.rs`) against its
natural-language specification.

Conventions of the embedding:
* machine words (`u64`) are `Nat` bit patterns, reduced modulo `2^64`
  exactly where the Rust code reduces them;
* `i64` values are `Int`, with `i64OfBits` / `bitsOfI64` translating the
  `as i64` / `as u64` casts;
* bytecode is a `List Nat` of bytes;
* IEEE-754 double operations are kept abstract in a `FloatOps` record:
  the dispatcher only moves 64-bit patterns through them, so every
  theorem below holds for an arbitrary `FloatOps`;
* fallible Rust code becomes `Except`; a Rust `panic!` in the assembler
  becomes `Option.none`;
* the wall clock sampled by the timeout check is an arbitrary function
  `elapsed : Nat → Nat` of the number of executed instructions.
-/

namespace Kayton

/-! ## Opcodes (src/vm/mod.rs lines 6-23) -/

def LOAD_I64 : Nat := 0x01
def LOAD_F64 : Nat := 0x02
def ADD_I64 : Nat := 0x03
def SUB_I64 : Nat := 0x04
def MUL_I64 : Nat := 0x05
def GT_I64 : Nat := 0x06
def ADD_F64 : Nat := 0x07
def SUB_F64 : Nat := 0x08
def MUL_F64 : Nat := 0x09
def GT_F64 : Nat := 0x0A
def JUMP_FORWARD_IF_FALSE : Nat := 0x0B
def JMP : Nat := 0x0C
def I64_TO_F64 : Nat := 0x0D
def F64_TO_I64 : Nat := 0x0E
def JUMP_BACKWARD_IF_FALSE : Nat := 0x0F
def JUMP_BACKWARD_IF_TRUE : Nat := 0x10
def JUMP_FORWARD_IF_TRUE : Nat := 0x11

/-! ## Integer casts -/

/-- `bits as i64`: reinterpret a `u64` bit pattern as a signed 64-bit value. -/
def i64OfBits (n : Nat) : Int :=
  if n < 2 ^ 63 then (n : Int) else (n : Int) - 2 ^ 64

/-- `v as u64`: reinterpret an `i64` value as a `u64` bit pattern. -/
def bitsOfI64 (v : Int) : Nat :=
  (v % (2 ^ 64 : Int)).toNat

/-- `i64::wrapping_add`: the unique `i64` congruent to the sum mod `2^64`. -/
def wrappingAddI64 (a b : Int) : Int :=
  (a + b + 2 ^ 63) % 2 ^ 64 - 2 ^ 63

/-- `i64::wrapping_sub`. -/
def wrappingSubI64 (a b : Int) : Int :=
  (a - b + 2 ^ 63) % 2 ^ 64 - 2 ^ 63

/-- `i64::wrapping_mul`. -/
def wrappingMulI64 (a b : Int) : Int :=
  (a * b + 2 ^ 63) % 2 ^ 64 - 2 ^ 63

/-! ## Abstract IEEE-754 double operations

The dispatcher stores doubles as raw 64-bit patterns; the actual float
arithmetic is abstracted into this record, over which every theorem is
universally quantified. -/

structure FloatOps where
  fadd : Nat → Nat → Nat
  fsub : Nat → Nat → Nat
  fmul : Nat → Nat → Nat
  fgt : Nat → Nat → Bool
  ofI64 : Int → Nat
  toI64 : Nat → Int

/-- A concrete (degenerate) instance, used only to instantiate witnesses. -/
def trivialFloatOps : FloatOps :=
  ⟨fun _ _ => 0, fun _ _ => 0, fun _ _ => 0, fun _ _ => false, fun _ => 0, fun _ => 0⟩

/-! ## VM state and errors (src/vm/mod.rs lines 25-57)

`VirtualMachine.registers` is `[u64; 256]`, indexed by a `u8`; we model
it as a function from register number to bit pattern. -/

abbrev Regs := Nat → Nat

def zeroRegs : Regs := fun _ => 0

def setReg (regs : Regs) (i v : Nat) : Regs :=
  fun j => if j = i then v else regs j

/-- `set_i64` stores `value as u64`. -/
def setI64 (regs : Regs) (reg : Nat) (v : Int) : Regs :=
  setReg regs reg (bitsOfI64 v)

inductive VmError where
  | invalidOpcode (b : Nat)
  | invalidJumpTarget (t : Nat)
  | unexpectedEndOfProgram
  | timeout (elapsed : Nat)
deriving Repr, DecidableEq

abbrev Bytecode := List Nat

/-- `read_u16` (little-endian), src/vm/mod.rs lines 80-85. -/
def readU16 (bc : Bytecode) (pos : Nat) : Except VmError Nat :=
  if bc.length ≤ pos + 1 then .error .unexpectedEndOfProgram
  else .ok (bc.getD pos 0 + 256 * bc.getD (pos + 1) 0)

/-- Assemble eight little-endian bytes into a 64-bit pattern. -/
def leBytesToNat (bc : Bytecode) (pos : Nat) : Nat :=
  bc.getD pos 0 + 256 * (bc.getD (pos + 1) 0 + 256 * (bc.getD (pos + 2) 0 +
    256 * (bc.getD (pos + 3) 0 + 256 * (bc.getD (pos + 4) 0 +
    256 * (bc.getD (pos + 5) 0 + 256 * (bc.getD (pos + 6) 0 +
    256 * bc.getD (pos + 7) 0))))))

/-- `read_i64` (little-endian), src/vm/mod.rs lines 88-103. -/
def readI64 (bc : Bytecode) (pos : Nat) : Except VmError Int :=
  if bc.length ≤ pos + 7 then .error .unexpectedEndOfProgram
  else .ok (i64OfBits (leBytesToNat bc pos))

/-- `read_f64`: parses eight bytes to an `f64`; the dispatcher immediately
stores the result back with `to_bits`, and `from_le_bytes` / `to_bits` are
mutually inverse transmutes, so the composition is the raw bit pattern. -/
def readF64Bits (bc : Bytecode) (pos : Nat) : Except VmError Nat :=
  if bc.length ≤ pos + 7 then .error .unexpectedEndOfProgram
  else .ok (leBytesToNat bc pos)

/-! ## The instruction dispatcher (src/vm/mod.rs lines 124-375)

`execute_instruction`, arm by arm.  The backward-jump error payloads use
the release-mode (wrapping) semantics of the `usize` / `i64` casts in the
source; the `JUMP_BACKWARD_IF_FALSE` arm computes `(*pc - offset) as u16`
and the `_IF_TRUE` arm `(*pc as i64 - offset as i64) as u16`, which agree
modulo `2^16`. -/

def jumpBackPayload (pc off : Nat) : Nat :=
  (((pc : Int) - (off : Int)) % (2 ^ 16 : Int)).toNat

def execInstr (fo : FloatOps) (bc : Bytecode) (regs : Regs) (pc : Nat) :
    Except VmError (Regs × Nat) := do
  if bc.length ≤ pc then throw .unexpectedEndOfProgram
  let opcode := bc.getD pc 0
  let pc1 := pc + 1
  match opcode with
  | 0x01 => -- LOAD_I64: [opcode, reg, i64_value[8]]
    if bc.length ≤ pc1 then throw .unexpectedEndOfProgram
    let reg := bc.getD pc1 0
    let value ← readI64 bc (pc1 + 1)
    return (setI64 regs reg value, pc1 + 1 + 8)
  | 0x02 => -- LOAD_F64: [opcode, reg, f64_value[8]]
    if bc.length ≤ pc1 then throw .unexpectedEndOfProgram
    let reg := bc.getD pc1 0
    let bits ← readF64Bits bc (pc1 + 1)
    return (setReg regs reg bits, pc1 + 1 + 8)
  | 0x03 => -- ADD_I64: [opcode, r1, r2, dst]
    if bc.length ≤ pc1 + 2 then throw .unexpectedEndOfProgram
    let r1 := bc.getD pc1 0
    let r2 := bc.getD (pc1 + 1) 0
    let dst := bc.getD (pc1 + 2) 0
    return (setI64 regs dst (wrappingAddI64 (i64OfBits (regs r1)) (i64OfBits (regs r2))),
      pc1 + 3)
  | 0x04 => -- SUB_I64
    if bc.length ≤ pc1 + 2 then throw .unexpectedEndOfProgram
    let r1 := bc.getD pc1 0
    let r2 := bc.getD (pc1 + 1) 0
    let dst := bc.getD (pc1 + 2) 0
    return (setI64 regs dst (wrappingSubI64 (i64OfBits (regs r1)) (i64OfBits (regs r2))),
      pc1 + 3)
  | 0x05 => -- MUL_I64
    if bc.length ≤ pc1 + 2 then throw .unexpectedEndOfProgram
    let r1 := bc.getD pc1 0
    let r2 := bc.getD (pc1 + 1) 0
    let dst := bc.getD (pc1 + 2) 0
    return (setI64 regs dst (wrappingMulI64 (i64OfBits (regs r1)) (i64OfBits (regs r2))),
      pc1 + 3)
  | 0x06 => -- GT_I64
    if bc.length ≤ pc1 + 2 then throw .unexpectedEndOfProgram
    let r1 := bc.getD pc1 0
    let r2 := bc.getD (pc1 + 1) 0
    let dst := bc.getD (pc1 + 2) 0
    return (setI64 regs dst (if i64OfBits (regs r2) < i64OfBits (regs r1) then 1 else 0),
      pc1 + 3)
  | 0x07 => -- ADD_F64
    if bc.length ≤ pc1 + 2 then throw .unexpectedEndOfProgram
    let r1 := bc.getD pc1 0
    let r2 := bc.getD (pc1 + 1) 0
    let dst := bc.getD (pc1 + 2) 0
    return (setReg regs dst (fo.fadd (regs r1) (regs r2)), pc1 + 3)
  | 0x08 => -- SUB_F64
    if bc.length ≤ pc1 + 2 then throw .unexpectedEndOfProgram
    let r1 := bc.getD pc1 0
    let r2 := bc.getD (pc1 + 1) 0
    let dst := bc.getD (pc1 + 2) 0
    return (setReg regs dst (fo.fsub (regs r1) (regs r2)), pc1 + 3)
  | 0x09 => -- MUL_F64
    if bc.length ≤ pc1 + 2 then throw .unexpectedEndOfProgram
    let r1 := bc.getD pc1 0
    let r2 := bc.getD (pc1 + 1) 0
    let dst := bc.getD (pc1 + 2) 0
    return (setReg regs dst (fo.fmul (regs r1) (regs r2)), pc1 + 3)
  | 0x0A => -- GT_F64
    if bc.length ≤ pc1 + 2 then throw .unexpectedEndOfProgram
    let r1 := bc.getD pc1 0
    let r2 := bc.getD (pc1 + 1) 0
    let dst := bc.getD (pc1 + 2) 0
    return (setI64 regs dst (if fo.fgt (regs r1) (regs r2) then 1 else 0), pc1 + 3)
  | 0x0B => -- JUMP_FORWARD_IF_FALSE: [opcode, cond_reg, offset[2]]
    if bc.length ≤ pc1 + 2 then throw .unexpectedEndOfProgram
    let condReg := bc.getD pc1 0
    let pc2 := pc1 + 1
    let off ← readU16 bc pc2
    let target := pc2 + off
    if bc.length < target then throw (.invalidJumpTarget target)
    if regs condReg = 0 then return (regs, target) else return (regs, pc2 + 2)
  | 0x11 => -- JUMP_FORWARD_IF_TRUE
    if bc.length ≤ pc1 + 2 then throw .unexpectedEndOfProgram
    let condReg := bc.getD pc1 0
    let pc2 := pc1 + 1
    let off ← readU16 bc pc2
    let target := pc2 + off
    if bc.length < target then throw (.invalidJumpTarget target)
    if regs condReg ≠ 0 then return (regs, target) else return (regs, pc2 + 2)
  | 0x0F => -- JUMP_BACKWARD_IF_FALSE
    if bc.length ≤ pc1 + 2 then throw .unexpectedEndOfProgram
    let condReg := bc.getD pc1 0
    let pc2 := pc1 + 1
    let off ← readU16 bc pc2
    let pc3 := pc2 + 2
    if pc3 < off then throw (.invalidJumpTarget (jumpBackPayload pc3 off))
    if regs condReg = 0 then return (regs, pc3 - off) else return (regs, pc3)
  | 0x10 => -- JUMP_BACKWARD_IF_TRUE
    if bc.length ≤ pc1 + 2 then throw .unexpectedEndOfProgram
    let condReg := bc.getD pc1 0
    let pc2 := pc1 + 1
    let off ← readU16 bc pc2
    let pc3 := pc2 + 2
    if pc3 < off then throw (.invalidJumpTarget (jumpBackPayload pc3 off))
    if regs condReg ≠ 0 then return (regs, pc3 - off) else return (regs, pc3)
  | 0x0C => -- JMP: [opcode, target[2]]
    if bc.length ≤ pc1 + 1 then throw .unexpectedEndOfProgram
    let target ← readU16 bc pc1
    if bc.length < target then throw (.invalidJumpTarget target)
    return (regs, target)
  | 0x0D => -- I64_TO_F64: [opcode, src, dst]
    if bc.length ≤ pc1 + 1 then throw .unexpectedEndOfProgram
    let src := bc.getD pc1 0
    let dst := bc.getD (pc1 + 1) 0
    return (setReg regs dst (fo.ofI64 (i64OfBits (regs src))), pc1 + 2)
  | 0x0E => -- F64_TO_I64: [opcode, src, dst]
    if bc.length ≤ pc1 + 1 then throw .unexpectedEndOfProgram
    let src := bc.getD pc1 0
    let dst := bc.getD (pc1 + 1) 0
    return (setI64 regs dst (fo.toI64 (regs src)), pc1 + 2)
  | _ => throw (.invalidOpcode opcode)

/-! ## The evaluation loop (src/vm/mod.rs lines 383-412)

`eval_program_with_timeout`.  The recursion is fuelled because the Rust
loop need not terminate; `EvalResult.fuelOut` marks fuel exhaustion.  The
instruction counter is carried in the result so that the timing claims
can mention it; `evalProgramWithTimeout` projects it away, matching the
Rust signature. -/

def TIMEOUT_CHECK_INTERVAL : Nat := 1000

inductive EvalResult where
  | ok (regs : Regs) (count : Nat)
  | err (e : VmError) (count : Nat)
  | fuelOut (regs : Regs) (pc count : Nat)

def evalAux (fo : FloatOps) (bc : Bytecode) (timeout : Option Nat)
    (elapsed : Nat → Nat) : Nat → Regs → Nat → Nat → EvalResult
  | 0, regs, pc, count => .fuelOut regs pc count
  | fuel + 1, regs, pc, count =>
    if pc < bc.length then
      match execInstr fo bc regs pc with
      | .error e => .err e count
      | .ok (regs', pc') =>
        let count' := count + 1
        match timeout with
        | some t =>
          if count' % TIMEOUT_CHECK_INTERVAL = 0 ∧ t < elapsed count' then
            .err (.timeout (elapsed count')) count'
          else evalAux fo bc timeout elapsed fuel regs' pc' count'
        | none => evalAux fo bc timeout elapsed fuel regs' pc' count'
    else .ok regs count

def evalProgramWithTimeout (fo : FloatOps) (bc : Bytecode) (timeout : Option Nat)
    (elapsed : Nat → Nat) (fuel : Nat) (regs : Regs) : Option (Except VmError Regs) :=
  match evalAux fo bc timeout elapsed fuel regs 0 0 with
  | .ok regs _ => some (.ok regs)
  | .err e _ => some (.error e)
  | .fuelOut _ _ _ => none

/-! ## The register file (src/vm/registers.rs)

`Registers` has a fixed inline region of 256 words and a grow-on-demand
spill `Vec`; the fixed array is modelled as a function, the spill as a
list.  `Vec::resize(n, 0)` becomes appending zeros. -/

def FIXED_COUNT : Nat := 256

structure Registers where
  fixed : Nat → Nat
  spill : List Nat

def Registers.new : Registers := ⟨fun _ => 0, []⟩

def Registers.get (r : Registers) (index : Nat) : Nat :=
  if index < FIXED_COUNT then r.fixed index
  else (r.spill.getD (index - FIXED_COUNT) 0)

def Registers.set (r : Registers) (index value : Nat) : Registers :=
  if index < FIXED_COUNT then
    { r with fixed := fun j => if j = index then value else r.fixed j }
  else
    let spillIndex := index - FIXED_COUNT
    let sp :=
      if r.spill.length ≤ spillIndex then
        r.spill ++ List.replicate (spillIndex + 1 - r.spill.length) 0
      else r.spill
    { r with spill := sp.set spillIndex value }

def Registers.ensureLen (r : Registers) (len : Nat) : Registers :=
  if len ≤ FIXED_COUNT then r
  else
    let spillNeeded := len - FIXED_COUNT
    if r.spill.length < spillNeeded then
      { r with spill := r.spill ++ List.replicate (spillNeeded - r.spill.length) 0 }
    else r

/-! ## The bytecode assembler (src/vm/mod.rs lines 451-761, identical to
src/vm/bytecode_builder.rs)

`u16` values are `Nat` reduced modulo `2^16` where the Rust code casts or
wraps; `panic!` becomes `Option.none`; the `HashMap<u32, u16>` of labels
is an association list with most-recent-first insertion. -/

def u16Sub (a b : Nat) : Nat := (a % 65536 + 65536 - b % 65536) % 65536

def u64ToLEBytes (n : Nat) : List Nat :=
  [n % 256, n / 256 % 256, n / 256 ^ 2 % 256, n / 256 ^ 3 % 256,
   n / 256 ^ 4 % 256, n / 256 ^ 5 % 256, n / 256 ^ 6 % 256, n / 256 ^ 7 % 256]

def u16ToLEBytes (n : Nat) : List Nat := [n % 256, n / 256 % 256]

inductive JumpType where
  | absolute
  | forwardIfFalse
  | forwardIfTrue
deriving Repr, DecidableEq

structure PendingJump where
  labelId : Nat
  patchPosition : Nat
  jumpType : JumpType
deriving Repr, DecidableEq

structure BuilderState where
  bytecode : List Nat
  labels : List (Nat × Nat)
  nextLabelId : Nat
  pendingJumps : List PendingJump

def BuilderState.new : BuilderState := ⟨[], [], 0, []⟩

def lookupLabel (labels : List (Nat × Nat)) (id : Nat) : Option Nat :=
  (labels.find? (fun e => e.1 = id)).map (·.2)

/-- `current_pos`: `self.bytecode.len() as u16`. -/
def BuilderState.currentPos (b : BuilderState) : Nat := b.bytecode.length % 65536

def BuilderState.createLabel (b : BuilderState) : Nat × BuilderState :=
  (b.nextLabelId, { b with nextLabelId := b.nextLabelId + 1 })

def BuilderState.placeLabel (b : BuilderState) (labelId : Nat) : BuilderState :=
  { b with labels := (labelId, b.currentPos) :: b.labels }

def BuilderState.loadI64 (b : BuilderState) (value : Int) (reg : Nat) : BuilderState :=
  { b with bytecode := b.bytecode ++ [LOAD_I64, reg] ++ u64ToLEBytes (bitsOfI64 value) }

def BuilderState.addI64 (b : BuilderState) (r1 r2 dst : Nat) : BuilderState :=
  { b with bytecode := b.bytecode ++ [ADD_I64, r1, r2, dst] }

def BuilderState.gtI64 (b : BuilderState) (r1 r2 dst : Nat) : BuilderState :=
  { b with bytecode := b.bytecode ++ [GT_I64, r1, r2, dst] }

/-- `jump_forward_if_false`: emits the instruction with a zero offset and
returns the byte position of the offset for later patching. -/
def BuilderState.jumpForwardIfFalse (b : BuilderState) (condReg : Nat) :
    Nat × BuilderState :=
  let bc := b.bytecode ++ [JUMP_FORWARD_IF_FALSE, condReg]
  let targetBytesPos := bc.length % 65536
  (targetBytesPos, { b with bytecode := bc ++ [0, 0] })

def BuilderState.jumpForwardIfTrue (b : BuilderState) (condReg : Nat) :
    Nat × BuilderState :=
  let bc := b.bytecode ++ [JUMP_FORWARD_IF_TRUE, condReg]
  let targetBytesPos := bc.length % 65536
  (targetBytesPos, { b with bytecode := bc ++ [0, 0] })

def BuilderState.jumpBackwardIfFalse (b : BuilderState) (condReg offset : Nat) :
    BuilderState :=
  { b with bytecode := b.bytecode ++ [JUMP_BACKWARD_IF_FALSE, condReg]
      ++ u16ToLEBytes offset }

def BuilderState.jumpBackwardIfTrue (b : BuilderState) (condReg offset : Nat) :
    BuilderState :=
  { b with bytecode := b.bytecode ++ [JUMP_BACKWARD_IF_TRUE, condReg]
      ++ u16ToLEBytes offset }

def BuilderState.jmp (b : BuilderState) (target : Nat) : Nat × BuilderState :=
  let bc := b.bytecode ++ [JMP]
  let targetBytesPos := bc.length % 65536
  (targetBytesPos, { b with bytecode := bc ++ u16ToLEBytes target })

def patchBytes (bc : List Nat) (pos value : Nat) : List Nat :=
  (bc.set pos (value % 256)).set (pos + 1) (value / 256 % 256)

/-- `patch_target`. -/
def BuilderState.patchTarget (b : BuilderState) (targetPos targetValue : Nat) :
    BuilderState :=
  { b with bytecode := patchBytes b.bytecode targetPos targetValue }

/-- `jump_forward_if_false_to`: panics (`none`) when `target ≤ current_pos`;
otherwise emits the offset `target - current_pos - 4` (u16 arithmetic,
wrapping in release builds when `current_pos < target < current_pos + 4`). -/
def BuilderState.jumpForwardIfFalseTo (b : BuilderState) (condReg target : Nat) :
    Option BuilderState :=
  let currentPos := b.currentPos
  if target ≤ currentPos then none
  else
    let offset := u16Sub (u16Sub target currentPos) 4
    some { b with bytecode := b.bytecode ++ [JUMP_FORWARD_IF_FALSE, condReg]
        ++ u16ToLEBytes offset }

def BuilderState.jumpForwardIfTrueTo (b : BuilderState) (condReg target : Nat) :
    Option BuilderState :=
  let currentPos := b.currentPos
  if target ≤ currentPos then none
  else
    let offset := u16Sub (u16Sub target currentPos) 4
    some { b with bytecode := b.bytecode ++ [JUMP_FORWARD_IF_TRUE, condReg]
        ++ u16ToLEBytes offset }

/-- `jump_backward_if_false_to`: panics (`none`) when `target ≥ current_pos`;
otherwise emits the offset `current_pos - target + 4` (u16, wrapping). -/
def BuilderState.jumpBackwardIfFalseTo (b : BuilderState) (condReg target : Nat) :
    Option BuilderState :=
  let currentPos := b.currentPos
  if currentPos ≤ target then none
  else some (b.jumpBackwardIfFalse condReg ((u16Sub currentPos target + 4) % 65536))

def BuilderState.jumpBackwardIfTrueTo (b : BuilderState) (condReg target : Nat) :
    Option BuilderState :=
  let currentPos := b.currentPos
  if currentPos ≤ target then none
  else some (b.jumpBackwardIfTrue condReg ((u16Sub currentPos target + 4) % 65536))

def BuilderState.jmpTo (b : BuilderState) (target : Nat) : BuilderState :=
  { b with bytecode := b.bytecode ++ [JMP] ++ u16ToLEBytes target }

/-- `jump_if_false_to_label`: already-placed labels resolve immediately
(forward or backward by direction); unplaced labels record a pending patch. -/
def BuilderState.jumpIfFalseToLabel (b : BuilderState) (condReg labelId : Nat) :
    Option BuilderState :=
  match lookupLabel b.labels labelId with
  | some target =>
    if b.currentPos < target then b.jumpForwardIfFalseTo condReg target
    else b.jumpBackwardIfFalseTo condReg target
  | none =>
    let (patchPos, b') := b.jumpForwardIfFalse condReg
    some { b' with pendingJumps :=
      b'.pendingJumps ++ [⟨labelId, patchPos, .forwardIfFalse⟩] }

def BuilderState.jumpIfTrueToLabel (b : BuilderState) (condReg labelId : Nat) :
    Option BuilderState :=
  match lookupLabel b.labels labelId with
  | some target =>
    if b.currentPos < target then b.jumpForwardIfTrueTo condReg target
    else b.jumpBackwardIfTrueTo condReg target
  | none =>
    let (patchPos, b') := b.jumpForwardIfTrue condReg
    some { b' with pendingJumps :=
      b'.pendingJumps ++ [⟨labelId, patchPos, .forwardIfTrue⟩] }

def BuilderState.jmpToLabel (b : BuilderState) (labelId : Nat) : BuilderState :=
  match lookupLabel b.labels labelId with
  | some target => b.jmpTo target
  | none =>
    let (patchPos, b') := b.jmp 0
    { b' with pendingJumps := b'.pendingJumps ++ [⟨labelId, patchPos, .absolute⟩] }

/-- The pending-jump resolution loop inside `build`: an absolute pending
jump patches the absolute target, a forward conditional one patches
`target - patch_position` (u16); an unresolved label panics (`none`). -/
def resolvePending (labels : List (Nat × Nat)) :
    List PendingJump → List Nat → Option (List Nat)
  | [], bc => some bc
  | p :: ps, bc =>
    match lookupLabel labels p.labelId with
    | none => none
    | some target =>
      match p.jumpType with
      | .absolute => resolvePending labels ps (patchBytes bc p.patchPosition target)
      | .forwardIfFalse | .forwardIfTrue =>
        resolvePending labels ps
          (patchBytes bc p.patchPosition (u16Sub target p.patchPosition))

def BuilderState.build (b : BuilderState) : Option (List Nat) :=
  resolvePending b.labels b.pendingJumps b.bytecode

/-- The value a pending patch writes: the absolute target for an absolute
jump, `target - patch_position` (u16) for a forward conditional. -/
def pendingPatchValue (p : PendingJump) (L : Nat) : Nat :=
  match p.jumpType with
  | .absolute => L
  | .forwardIfFalse => u16Sub L p.patchPosition
  | .forwardIfTrue => u16Sub L p.patchPosition

/-! ## Host functions and the call stack (src/vm/call.rs)

The newer VM revision's registry and frame types.  A host callback
`fn(base: usize, &mut Registers) -> Result<(), String>` becomes a function
returning the updated register file or an error message. -/

abbrev HostFn := Nat → Registers → Except String Registers

structure HostFunctionMetadata where
  name : String
  numReturnRegisters : Nat
  numParams : Nat
  numRegisters : Nat

structure HostFunctionRegistry where
  funcs : List HostFn
  metadata : List HostFunctionMetadata

def HostFunctionRegistry.register (r : HostFunctionRegistry) (name : String)
    (numReturnRegisters numParams numRegisters : Nat) (func : HostFn) :
    Nat × HostFunctionRegistry :=
  (r.funcs.length,
   { funcs := r.funcs ++ [func],
     metadata := r.metadata ++
       [⟨name, numReturnRegisters, numParams, numRegisters⟩] })

inductive CallInfo where
  | global (base top : Nat)
  | call (base top functionIndex : Nat)
  | callHost (base top hostFnIndex : Nat)

def CallInfo.base : CallInfo → Nat
  | .global b _ => b
  | .call b _ _ => b
  | .callHost b _ _ => b

/-- The newer VM revision's state: register file, call stack (top of stack
at the head of the list), host registry. -/
structure HostVM where
  registers : Registers
  callStack : List CallInfo
  hostFunctions : HostFunctionRegistry

/-- `current_base` (src/vm/call.rs lines 52-61): the base of the top
frame, 0 for an empty stack. -/
def HostVM.currentBase (vm : HostVM) : Nat :=
  ((vm.callStack.head?).map CallInfo.base).getD 0

/-- The newer VM revision's error variants relevant to CALL_HOST. -/
inductive HostVmError where
  | invalidConstIndex (i : Nat)
  | hostError (msg : String)
deriving Repr, DecidableEq

/-- Modelled from the spec: the CALL_HOST execution step of the newer
dispatcher, whose dispatcher module is not under src/ (only its registry
and frame types in call.rs and its tests in tests_call.rs are).  Spec
§4.5: let `abs = current_base + reg`; read `fn_index = registers[abs]`;
look up the host entry, failing with `InvalidConstIndex(fn_index)` if
absent; frame `base = abs`, `top = base + n_regs - 1`; ensure register
capacity up to `top`; push a host-call frame; invoke the callback with
`base` and the register file; pop the frame; surface a callback error
message as `HostError(msg)`.  The instrumented result also reports the
frame that was pushed (the pop restores the original stack). -/
def execCallHostAux (vm : HostVM) (reg : Nat) :
    Option CallInfo × Except HostVmError HostVM :=
  let abs := vm.currentBase + reg
  let fnIndex := vm.registers.get abs
  match vm.hostFunctions.funcs[fnIndex]?, vm.hostFunctions.metadata[fnIndex]? with
  | some func, some meta =>
    let base := abs
    let top := base + meta.numRegisters - 1
    let regs1 := vm.registers.ensureLen (top + 1)
    let frame := CallInfo.callHost base top fnIndex
    match func base regs1 with
    | .error msg => (some frame, .error (.hostError msg))
    | .ok regs2 =>
      (some frame, .ok { vm with registers := regs2, callStack := vm.callStack })
  | _, _ => (none, .error (.invalidConstIndex fnIndex))

def execCallHost (vm : HostVM) (reg : Nat) : Except HostVmError HostVM :=
  (execCallHostAux vm reg).2

/-- The `inc` host function of tests_call.rs:
`registers.set(base, registers.get(base + 1) + 1)`. -/
def incHostFn : HostFn := fun base registers =>
  .ok (registers.set base (registers.get (base + 1) + 1))

/-- Concrete host VM used by the C3 witness: the test_call_host_basic
setup of tests_call.rs — `inc` registered at index 0, register 10 holding
the function index, register 11 holding 41. -/
def c3VM : HostVM :=
  { registers := (Registers.new.set 10 0).set 11 41
    callStack := [CallInfo.global 0 0]
    hostFunctions := (HostFunctionRegistry.register ⟨[], []⟩ "inc" 1 1 2 incHostFn).2 }

/-! ## Decoded jump views (for the jump-validation claims)

These describe, per jump opcode, the width-promoted target pc the
dispatcher computes and whether the condition register makes the jump
taken; they are only used to state theorems about `execInstr`. -/

/-- The width-promoted target of the jump instruction decoded at `pc`
(`none` if `pc` does not hold a jump opcode with all operand bytes
present): the absolute operand for JMP, the offset-field pc plus the
offset for forward conditionals, the post-operand pc minus the offset for
backward conditionals. -/
def jumpTargetI (bc : Bytecode) (pc : Nat) : Option Int :=
  let op := bc.getD pc 0
  if op = JMP ∧ pc + 2 < bc.length then
    some ((bc.getD (pc + 1) 0 + 256 * bc.getD (pc + 2) 0 : Nat) : Int)
  else if (op = JUMP_FORWARD_IF_FALSE ∨ op = JUMP_FORWARD_IF_TRUE) ∧
      pc + 3 < bc.length then
    some ((pc + 2 + (bc.getD (pc + 2) 0 + 256 * bc.getD (pc + 3) 0) : Nat) : Int)
  else if (op = JUMP_BACKWARD_IF_FALSE ∨ op = JUMP_BACKWARD_IF_TRUE) ∧
      pc + 3 < bc.length then
    some ((pc + 4 : Int) - (bc.getD (pc + 2) 0 + 256 * bc.getD (pc + 3) 0 : Nat))
  else none

/-- Whether the jump decoded at `pc` is taken: JMP always, `_IF_FALSE`
when the condition register is zero, `_IF_TRUE` when it is non-zero. -/
def jumpTaken (bc : Bytecode) (regs : Regs) (pc : Nat) : Bool :=
  let op := bc.getD pc 0
  if op = JMP then true
  else if op = JUMP_FORWARD_IF_FALSE ∨ op = JUMP_BACKWARD_IF_FALSE then
    decide (regs (bc.getD (pc + 1) 0) = 0)
  else if op = JUMP_FORWARD_IF_TRUE ∨ op = JUMP_BACKWARD_IF_TRUE then
    decide (regs (bc.getD (pc + 1) 0) ≠ 0)
  else false

/-- Concrete builder run used by the C4 witness: a conditional label jump
referencing a label placed only after a 10-byte LOAD_I64, then `build`. -/
def c4Builder : BuilderState :=
  let r := BuilderState.new.createLabel
  let b2 := (r.2.jumpIfFalseToLabel 3 r.1).getD r.2
  let b3 := b2.loadI64 5 1
  b3.placeLabel r.1

/-! ## The disassembler (src/vm/print_bytecode.rs, `format_bytecode`)

The newer VM revision's disassembler handles an extended instruction set
(LOAD_CONST_VALUE/SLICE and the GTE/LT/LTE comparisons).  Rendered lines
are kept structured — start pc, mnemonic and decoded operands in source
order — rather than as formatted text; an f64 operand is rendered by its
bit pattern.  The two trailing `pc=`/`bytecode.len()=` summary lines are
not modelled. -/

/-- Modelled from the spec: the opcode constant values of the newer
instruction set (LOAD_CONST_VALUE, LOAD_CONST_SLICE and the
GTE/LT/LTE comparisons) are defined in the newer dispatcher module, which
is not under src/; the spec freezes the opcodes but not their numeric
values, so they are modelled as fresh distinct bytes. -/
def LOAD_CONST_VALUE : Nat := 0x12
def LOAD_CONST_SLICE : Nat := 0x13
def GTE_I64 : Nat := 0x14
def LT_I64 : Nat := 0x15
def LTE_I64 : Nat := 0x16
def GTE_F64 : Nat := 0x17
def LT_F64 : Nat := 0x18
def LTE_F64 : Nat := 0x19

/-- One rendered disassembly line: start pc, mnemonic, decoded operands. -/
structure DisLine where
  pc : Nat
  mnemonic : String
  args : List Int
deriving Repr

/-- A disassembly error: a truncated instruction (named, with the detail
text of the source message) or an unknown opcode. -/
inductive DisasmErr where
  | incomplete (pc : Nat) (mnemonic detail : String)
  | unknown (pc : Nat) (opcode : Nat)
deriving Repr, DecidableEq

inductive DisasmResult where
  | lines (ls : List DisLine)
  | error (e : DisasmErr)
  | fuelOut
deriving Repr

def consLine (l : DisLine) : DisasmResult → DisasmResult
  | .lines ls => .lines (l :: ls)
  | .error e => .error e
  | .fuelOut => .fuelOut

/-- The scan loop of `format_bytecode`, fuelled (each instruction advances
the pc, so `bc.length + 1` fuel always suffices). -/
def fbAux (bc : Bytecode) : Nat → Nat → DisasmResult
  | 0, _ => .fuelOut
  | fuel + 1, pc =>
    if pc < bc.length then
      let opcode := bc.getD pc 0
      let pc1 := pc + 1
      match opcode with
      | 0x01 => -- LOAD_I64
        if bc.length ≤ pc1 then
          .error (.incomplete pc "LOAD_I64" "missing register")
        else if bc.length ≤ pc1 + 8 then
          .error (.incomplete pc "LOAD_I64" "missing value bytes")
        else
          consLine ⟨pc, "LOAD_I64",
              [(bc.getD pc1 0 : Int), i64OfBits (leBytesToNat bc (pc1 + 1))]⟩
            (fbAux bc fuel (pc1 + 9))
      | 0x02 => -- LOAD_F64
        if bc.length ≤ pc1 then
          .error (.incomplete pc "LOAD_F64" "missing register")
        else if bc.length ≤ pc1 + 8 then
          .error (.incomplete pc "LOAD_F64" "missing value bytes")
        else
          consLine ⟨pc, "LOAD_F64",
              [(bc.getD pc1 0 : Int), (leBytesToNat bc (pc1 + 1) : Int)]⟩
            (fbAux bc fuel (pc1 + 9))
      | 0x12 => -- LOAD_CONST_VALUE
        if bc.length ≤ pc1 + 2 then
          .error (.incomplete pc "LOAD_CONST_VALUE" "missing operands")
        else
          consLine ⟨pc, "LOAD_CONST_VALUE",
              [(bc.getD pc1 0 : Int),
               (bc.getD (pc1 + 1) 0 + 256 * bc.getD (pc1 + 2) 0 : Nat)]⟩
            (fbAux bc fuel (pc1 + 3))
      | 0x13 => -- LOAD_CONST_SLICE
        if bc.length ≤ pc1 + 2 then
          .error (.incomplete pc "LOAD_CONST_SLICE" "missing operands")
        else
          consLine ⟨pc, "LOAD_CONST_SLICE",
              [(bc.getD pc1 0 : Int),
               (bc.getD (pc1 + 1) 0 + 256 * bc.getD (pc1 + 2) 0 : Nat)]⟩
            (fbAux bc fuel (pc1 + 3))
      | 0x03 => -- ADD_I64
        if bc.length ≤ pc1 + 2 then
          .error (.incomplete pc "ADD_I64" "missing register operands")
        else
          consLine ⟨pc, "ADD_I64",
              [(bc.getD pc1 0 : Int), (bc.getD (pc1 + 1) 0 : Int),
               (bc.getD (pc1 + 2) 0 : Int)]⟩
            (fbAux bc fuel (pc1 + 3))
      | 0x04 => -- SUB_I64
        if bc.length ≤ pc1 + 2 then
          .error (.incomplete pc "SUB_I64" "missing register operands")
        else
          consLine ⟨pc, "SUB_I64",
              [(bc.getD pc1 0 : Int), (bc.getD (pc1 + 1) 0 : Int),
               (bc.getD (pc1 + 2) 0 : Int)]⟩
            (fbAux bc fuel (pc1 + 3))
      | 0x05 => -- MUL_I64
        if bc.length ≤ pc1 + 2 then
          .error (.incomplete pc "MUL_I64" "missing register operands")
        else
          consLine ⟨pc, "MUL_I64",
              [(bc.getD pc1 0 : Int), (bc.getD (pc1 + 1) 0 : Int),
               (bc.getD (pc1 + 2) 0 : Int)]⟩
            (fbAux bc fuel (pc1 + 3))
      | 0x06 => -- GT_I64
        if bc.length ≤ pc1 + 2 then
          .error (.incomplete pc "GT_I64" "missing register operands")
        else
          consLine ⟨pc, "GT_I64",
              [(bc.getD pc1 0 : Int), (bc.getD (pc1 + 1) 0 : Int),
               (bc.getD (pc1 + 2) 0 : Int)]⟩
            (fbAux bc fuel (pc1 + 3))
      | 0x14 => -- GTE_I64
        if bc.length ≤ pc1 + 2 then
          .error (.incomplete pc "GTE_I64" "missing register operands")
        else
          consLine ⟨pc, "GTE_I64",
              [(bc.getD pc1 0 : Int), (bc.getD (pc1 + 1) 0 : Int),
               (bc.getD (pc1 + 2) 0 : Int)]⟩
            (fbAux bc fuel (pc1 + 3))
      | 0x15 => -- LT_I64
        if bc.length ≤ pc1 + 2 then
          .error (.incomplete pc "LT_I64" "missing register operands")
        else
          consLine ⟨pc, "LT_I64",
              [(bc.getD pc1 0 : Int), (bc.getD (pc1 + 1) 0 : Int),
               (bc.getD (pc1 + 2) 0 : Int)]⟩
            (fbAux bc fuel (pc1 + 3))
      | 0x16 => -- LTE_I64
        if bc.length ≤ pc1 + 2 then
          .error (.incomplete pc "LTE_I64" "missing register operands")
        else
          consLine ⟨pc, "LTE_I64",
              [(bc.getD pc1 0 : Int), (bc.getD (pc1 + 1) 0 : Int),
               (bc.getD (pc1 + 2) 0 : Int)]⟩
            (fbAux bc fuel (pc1 + 3))
      | 0x07 => -- ADD_F64
        if bc.length ≤ pc1 + 2 then
          .error (.incomplete pc "ADD_F64" "missing register operands")
        else
          consLine ⟨pc, "ADD_F64",
              [(bc.getD pc1 0 : Int), (bc.getD (pc1 + 1) 0 : Int),
               (bc.getD (pc1 + 2) 0 : Int)]⟩
            (fbAux bc fuel (pc1 + 3))
      | 0x08 => -- SUB_F64
        if bc.length ≤ pc1 + 2 then
          .error (.incomplete pc "SUB_F64" "missing register operands")
        else
          consLine ⟨pc, "SUB_F64",
              [(bc.getD pc1 0 : Int), (bc.getD (pc1 + 1) 0 : Int),
               (bc.getD (pc1 + 2) 0 : Int)]⟩
            (fbAux bc fuel (pc1 + 3))
      | 0x09 => -- MUL_F64
        if bc.length ≤ pc1 + 2 then
          .error (.incomplete pc "MUL_F64" "missing register operands")
        else
          consLine ⟨pc, "MUL_F64",
              [(bc.getD pc1 0 : Int), (bc.getD (pc1 + 1) 0 : Int),
               (bc.getD (pc1 + 2) 0 : Int)]⟩
            (fbAux bc fuel (pc1 + 3))
      | 0x0A => -- GT_F64
        if bc.length ≤ pc1 + 2 then
          .error (.incomplete pc "GT_F64" "missing register operands")
        else
          consLine ⟨pc, "GT_F64",
              [(bc.getD pc1 0 : Int), (bc.getD (pc1 + 1) 0 : Int),
               (bc.getD (pc1 + 2) 0 : Int)]⟩
            (fbAux bc fuel (pc1 + 3))
      | 0x17 => -- GTE_F64
        if bc.length ≤ pc1 + 2 then
          .error (.incomplete pc "GTE_F64" "missing register operands")
        else
          consLine ⟨pc, "GTE_F64",
              [(bc.getD pc1 0 : Int), (bc.getD (pc1 + 1) 0 : Int),
               (bc.getD (pc1 + 2) 0 : Int)]⟩
            (fbAux bc fuel (pc1 + 3))
      | 0x18 => -- LT_F64
        if bc.length ≤ pc1 + 2 then
          .error (.incomplete pc "LT_F64" "missing register operands")
        else
          consLine ⟨pc, "LT_F64",
              [(bc.getD pc1 0 : Int), (bc.getD (pc1 + 1) 0 : Int),
               (bc.getD (pc1 + 2) 0 : Int)]⟩
            (fbAux bc fuel (pc1 + 3))
      | 0x19 => -- LTE_F64
        if bc.length ≤ pc1 + 2 then
          .error (.incomplete pc "LTE_F64" "missing register operands")
        else
          consLine ⟨pc, "LTE_F64",
              [(bc.getD pc1 0 : Int), (bc.getD (pc1 + 1) 0 : Int),
               (bc.getD (pc1 + 2) 0 : Int)]⟩
            (fbAux bc fuel (pc1 + 3))
      | 0x0B => -- JUMP_FORWARD_IF_FALSE
        if bc.length ≤ pc1 + 2 then
          .error (.incomplete pc "JUMP_FORWARD_IF_FALSE"
            "missing condition register or offset")
        else
          consLine ⟨pc, "JUMP_FORWARD_IF_FALSE",
              [(bc.getD pc1 0 : Int),
               (pc1 + 1 + (bc.getD (pc1 + 1) 0 + 256 * bc.getD (pc1 + 2) 0) : Nat),
               (bc.getD (pc1 + 1) 0 + 256 * bc.getD (pc1 + 2) 0 : Nat)]⟩
            (fbAux bc fuel (pc1 + 3))
      | 0x11 => -- JUMP_FORWARD_IF_TRUE
        if bc.length ≤ pc1 + 2 then
          .error (.incomplete pc "JUMP_FORWARD_IF_TRUE"
            "missing condition register or offset")
        else
          consLine ⟨pc, "JUMP_FORWARD_IF_TRUE",
              [(bc.getD pc1 0 : Int),
               (pc1 + 1 + (bc.getD (pc1 + 1) 0 + 256 * bc.getD (pc1 + 2) 0) : Nat),
               (bc.getD (pc1 + 1) 0 + 256 * bc.getD (pc1 + 2) 0 : Nat)]⟩
            (fbAux bc fuel (pc1 + 3))
      | 0x0F => -- JUMP_BACKWARD_IF_FALSE
        if bc.length ≤ pc1 + 2 then
          .error (.incomplete pc "JUMP_BACKWARD_IF_FALSE"
            "missing condition register or offset")
        else
          consLine ⟨pc, "JUMP_BACKWARD_IF_FALSE",
              [(bc.getD pc1 0 : Int),
               (pc1 + 3 : Int) - (bc.getD (pc1 + 1) 0 + 256 * bc.getD (pc1 + 2) 0 : Nat),
               (bc.getD (pc1 + 1) 0 + 256 * bc.getD (pc1 + 2) 0 : Nat)]⟩
            (fbAux bc fuel (pc1 + 3))
      | 0x10 => -- JUMP_BACKWARD_IF_TRUE
        if bc.length ≤ pc1 + 2 then
          .error (.incomplete pc "JUMP_BACKWARD_IF_TRUE"
            "missing condition register or offset")
        else
          consLine ⟨pc, "JUMP_BACKWARD_IF_TRUE",
              [(bc.getD pc1 0 : Int),
               (pc1 + 3 : Int) - (bc.getD (pc1 + 1) 0 + 256 * bc.getD (pc1 + 2) 0 : Nat),
               (bc.getD (pc1 + 1) 0 + 256 * bc.getD (pc1 + 2) 0 : Nat)]⟩
            (fbAux bc fuel (pc1 + 3))
      | 0x0C => -- JMP
        if bc.length ≤ pc1 + 1 then
          .error (.incomplete pc "JMP" "missing target address")
        else
          consLine ⟨pc, "JMP",
              [(bc.getD pc1 0 + 256 * bc.getD (pc1 + 1) 0 : Nat)]⟩
            (fbAux bc fuel (pc1 + 2))
      | 0x0D => -- I64_TO_F64
        if bc.length ≤ pc1 + 1 then
          .error (.incomplete pc "I64_TO_F64" "missing register operands")
        else
          consLine ⟨pc, "I64_TO_F64",
              [(bc.getD pc1 0 : Int), (bc.getD (pc1 + 1) 0 : Int)]⟩
            (fbAux bc fuel (pc1 + 2))
      | 0x0E => -- F64_TO_I64
        if bc.length ≤ pc1 + 1 then
          .error (.incomplete pc "F64_TO_I64" "missing register operands")
        else
          consLine ⟨pc, "F64_TO_I64",
              [(bc.getD pc1 0 : Int), (bc.getD (pc1 + 1) 0 : Int)]⟩
            (fbAux bc fuel (pc1 + 2))
      | _ => .error (.unknown pc opcode)
    else .lines []

/-- `format_bytecode`: scan from pc 0; the fuel is always sufficient. -/
def formatBytecode (bc : Bytecode) : DisasmResult :=
  fbAux bc (bc.length + 1) 0

/-- Byte length of the instruction starting with the given opcode,
`none` for an unknown opcode. -/
def knownSize : Nat → Option Nat
  | 0x01 => some 10
  | 0x02 => some 10
  | 0x12 => some 4
  | 0x13 => some 4
  | 0x03 => some 4
  | 0x04 => some 4
  | 0x05 => some 4
  | 0x06 => some 4
  | 0x14 => some 4
  | 0x15 => some 4
  | 0x16 => some 4
  | 0x07 => some 4
  | 0x08 => some 4
  | 0x09 => some 4
  | 0x0A => some 4
  | 0x17 => some 4
  | 0x18 => some 4
  | 0x19 => some 4
  | 0x0B => some 4
  | 0x11 => some 4
  | 0x0F => some 4
  | 0x10 => some 4
  | 0x0C => some 3
  | 0x0D => some 3
  | 0x0E => some 3
  | _ => none

/-- The mnemonic of a known opcode. -/
def mnemonicOf : Nat → String
  | 0x01 => "LOAD_I64"
  | 0x02 => "LOAD_F64"
  | 0x12 => "LOAD_CONST_VALUE"
  | 0x13 => "LOAD_CONST_SLICE"
  | 0x03 => "ADD_I64"
  | 0x04 => "SUB_I64"
  | 0x05 => "MUL_I64"
  | 0x06 => "GT_I64"
  | 0x14 => "GTE_I64"
  | 0x15 => "LT_I64"
  | 0x16 => "LTE_I64"
  | 0x07 => "ADD_F64"
  | 0x08 => "SUB_F64"
  | 0x09 => "MUL_F64"
  | 0x0A => "GT_F64"
  | 0x17 => "GTE_F64"
  | 0x18 => "LT_F64"
  | 0x19 => "LTE_F64"
  | 0x0B => "JUMP_FORWARD_IF_FALSE"
  | 0x11 => "JUMP_FORWARD_IF_TRUE"
  | 0x0F => "JUMP_BACKWARD_IF_FALSE"
  | 0x10 => "JUMP_BACKWARD_IF_TRUE"
  | 0x0C => "JMP"
  | 0x0D => "I64_TO_F64"
  | 0x0E => "F64_TO_I64"
  | _ => "UNKNOWN"

/-- The instruction boundaries the scan visits: position 0, and past any
well-formed instruction. -/
inductive Reach (bc : Bytecode) : Nat → Prop where
  | zero : Reach bc 0
  | step (p n : Nat) : Reach bc p → p < bc.length →
      knownSize (bc.getD p 0) = some n → p + n ≤ bc.length → Reach bc (p + n)

/-- The error identifies the first malformed instruction: its position is
an instruction boundary reached by decoding only well-formed instructions
from pc 0, and the error names what is there — an unknown opcode byte, or
a known instruction whose operands run past the buffer. -/
def FirstMalformed (bc : Bytecode) : DisasmErr → Prop
  | .unknown p op => Reach bc p ∧ p < bc.length ∧ bc.getD p 0 = op ∧
      knownSize op = none
  | .incomplete p mnem _detail => Reach bc p ∧ p < bc.length ∧
      (∃ n, knownSize (bc.getD p 0) = some n ∧ bc.length < p + n) ∧
      mnem = mnemonicOf (bc.getD p 0)

/-- A rendered line is sound: it sits at a reached instruction boundary
inside the buffer, its mnemonic is the one of the opcode there, and that
instruction is complete. -/
def LineOk (bc : Bytecode) (l : DisLine) : Prop :=
  Reach bc l.pc ∧ l.pc < bc.length ∧ l.mnemonic = mnemonicOf (bc.getD l.pc 0) ∧
  ∃ n, knownSize (bc.getD l.pc 0) = some n ∧ l.pc + n ≤ bc.length

/-- The disassembler outcome the C9 claim describes: either every rendered
line is sound, or the error pinpoints the first malformed instruction. -/
def GoodResult (bc : Bytecode) (r : DisasmResult) : Prop :=
  (∃ ls, r = .lines ls ∧ ∀ l ∈ ls, LineOk bc l) ∨
  (∃ e, r = .error e ∧ FirstMalformed bc e)

/-! # Theorems -/

/-! ## Helper lemmas -/

theorem getD_set_self (l : List Nat) (n v : Nat) (h : n < l.length) :
    (l.set n v).getD n 0 = v := by
  simp [List.getD, List.getElem?_set_self', List.getElem?_eq_getElem h]

theorem getD_set_ne (l : List Nat) (m n v : Nat) (h : m ≠ n) :
    (l.set m v).getD n 0 = l.getD n 0 := by
  simp [List.getD, List.getElem?_set_ne h]

theorem getD_append_left (l l' : List Nat) (n : Nat) (h : n < l.length) :
    (l ++ l').getD n 0 = l.getD n 0 := by
  simp [List.getD, List.getElem?_append, h]

theorem getD_append_replicate (l : List Nat) (k n : Nat) :
    (l ++ List.replicate k 0).getD n 0 = l.getD n 0 := by
  rcases Nat.lt_or_ge n l.length with h | h
  · exact getD_append_left _ _ _ h
  · rw [List.getD_eq_getD_get?, List.getD_eq_getD_get?]
    rw [List.get?_eq_getElem?, List.get?_eq_getElem?]
    rw [List.getElem?_append_right h, List.getElem?_eq_none h]
    cases hr : (List.replicate k (0 : Nat))[n - l.length]? with
    | none => rfl
    | some v =>
      have := List.getElem?_mem hr
      simp [List.eq_of_mem_replicate this]

/-! ## C6: register file zero-initialisation and set/get behaviour -/

/-- C6: a read of any register index before the first write returns 0 (a
fresh register file reads 0 everywhere); after `set i w`, reading `i`
returns `w`, and reading any `j ≠ i` returns what it returned before. -/
theorem registers_zero_init_set_get :
    (∀ i, Registers.new.get i = 0) ∧
    (∀ (r : Registers) (i w : Nat), (r.set i w).get i = w) ∧
    (∀ (r : Registers) (i j w : Nat), j ≠ i → (r.set i w).get j = r.get j) := by
  refine ⟨?_, ?_, ?_⟩
  · intro i
    unfold Registers.new Registers.get
    split
    · rfl
    · simp [List.getD]
  · intro r i w
    unfold Registers.set Registers.get
    by_cases hi : i < FIXED_COUNT
    · simp [hi]
    · simp only [if_neg hi]
      by_cases hg : r.spill.length ≤ i - FIXED_COUNT
      · simp only [if_pos hg]
        exact getD_set_self _ _ _ (by simp [List.length_replicate]; omega)
      · simp only [if_neg hg]
        exact getD_set_self _ _ _ (by omega)
  · intro r i j w hji
    unfold Registers.set Registers.get
    by_cases hi : i < FIXED_COUNT
    · by_cases hj : j < FIXED_COUNT
      · simp [hi, hj, hji]
      · simp [hi, hj]
    · by_cases hj : j < FIXED_COUNT
      · simp [hi, hj]
      · simp only [if_neg hi, if_neg hj]
        have hne : j - FIXED_COUNT ≠ i - FIXED_COUNT := by
          unfold FIXED_COUNT at *; omega
        by_cases hg : r.spill.length ≤ i - FIXED_COUNT
        · simp only [if_pos hg]
          rw [getD_set_ne _ _ _ _ (Ne.symm hne), getD_append_replicate]
        · simp only [if_neg hg]
          rw [getD_set_ne _ _ _ _ (Ne.symm hne)]

/-- C6 witness: concrete instantiation of the set/get laws. -/
theorem registers_zero_init_set_get_witness :
    Registers.new.get 300 = 0 ∧
    ((Registers.new.set 300 7).set 2 5).get 2 = 5 ∧
    (3 : Nat) ≠ 2 ∧ ((Registers.new.set 300 7).set 2 5).get 3 =
      (Registers.new.set 300 7).get 3 := by
  refine ⟨registers_zero_init_set_get.1 300,
    registers_zero_init_set_get.2.1 _ 2 5, by decide,
    registers_zero_init_set_get.2.2 _ 2 3 5 (by decide)⟩

/-! ## C7: ADD_I64 wraps modulo 2^64 -/

theorem bitsOfI64_wrappingAdd (x y : Nat) (hx : x < 2 ^ 64) (hy : y < 2 ^ 64) :
    bitsOfI64 (wrappingAddI64 (i64OfBits x) (i64OfBits y)) = (x + y) % 2 ^ 64 := by
  unfold bitsOfI64 wrappingAddI64 i64OfBits
  split <;> split <;> omega

/-- C7: for i64 source values `a`, `b` (as bit patterns `x`, `y`), the
`ADD_I64` arm stores in the destination register the bit pattern
`(x + y) % 2^64`, i.e. the two's-complement sum modulo `2^64`, never
trapping; interpreted as an i64 it is congruent to `a + b` mod `2^64`. -/
theorem add_i64_wraps (fo : FloatOps) (bc : Bytecode) (regs : Regs)
    (pc r1 r2 dst : Nat)
    (hop : bc.getD pc 0 = ADD_I64) (hlen : pc + 3 < bc.length)
    (h1 : bc.getD (pc + 1) 0 = r1) (h2 : bc.getD (pc + 2) 0 = r2)
    (h3 : bc.getD (pc + 3) 0 = dst)
    (hx : regs r1 < 2 ^ 64) (hy : regs r2 < 2 ^ 64) :
    execInstr fo bc regs pc =
      .ok (setReg regs dst ((regs r1 + regs r2) % 2 ^ 64), pc + 4) ∧
    i64OfBits ((regs r1 + regs r2) % 2 ^ 64) % 2 ^ 64 =
      (i64OfBits (regs r1) + i64OfBits (regs r2)) % 2 ^ 64 := by
  constructor
  · have hpc : ¬ bc.length ≤ pc := by omega
    have hpc3 : ¬ bc.length ≤ pc + 1 + 2 := by omega
    unfold execInstr
    simp only [hop, ADD_I64]
    simp only [hpc, if_false, hpc3, ite_false]
    simp only [show pc + 1 + 1 = pc + 2 from rfl, show pc + 1 + 2 = pc + 3 from rfl,
      h1, h2, h3]
    simp only [setI64, bitsOfI64_wrappingAdd _ _ hx hy]
    rfl
  · unfold i64OfBits
    split <;> split <;> split <;> omega

/-- C7 witness: `(2^63 - 1) + 1` wraps to the minimum i64. -/
theorem add_i64_wraps_witness :
    execInstr trivialFloatOps [0x03, 0, 1, 2]
        (fun i => if i = 0 then 2 ^ 63 - 1 else if i = 1 then 1 else 0) 0 =
      .ok (setReg (fun i => if i = 0 then 2 ^ 63 - 1 else if i = 1 then 1 else 0) 2
        ((2 ^ 63 - 1 + 1) % 2 ^ 64), 4) := by
  have h := add_i64_wraps trivialFloatOps [0x03, 0, 1, 2]
    (fun i => if i = 0 then 2 ^ 63 - 1 else if i = 1 then 1 else 0) 0 0 1 2
    rfl (by decide) rfl rfl rfl (by norm_num) (by norm_num)
  simpa using h.1

/-! ## C1: forward conditional jump target arithmetic -/

/-- C1 (amended): for a decoded JUMP_FORWARD_IF_FALSE / JUMP_FORWARD_IF_TRUE
whose condition is satisfied, the new pc equals the pc of the first offset
byte (the post-operand pc minus 2) plus the decoded unsigned 16-bit offset. -/
theorem jump_forward_taken_new_pc (fo : FloatOps) (bc : Bytecode) (regs : Regs)
    (pc off : Nat) (hlen : pc + 3 < bc.length)
    (hoff : readU16 bc (pc + 2) = .ok off) (htgt : pc + 2 + off ≤ bc.length) :
    (bc.getD pc 0 = JUMP_FORWARD_IF_FALSE → regs (bc.getD (pc + 1) 0) = 0 →
      execInstr fo bc regs pc = .ok (regs, pc + 2 + off)) ∧
    (bc.getD pc 0 = JUMP_FORWARD_IF_TRUE → regs (bc.getD (pc + 1) 0) ≠ 0 →
      execInstr fo bc regs pc = .ok (regs, pc + 2 + off)) := by
  have hpc : ¬ bc.length ≤ pc := by omega
  have hb : ¬ bc.length ≤ pc + 1 + 2 := by omega
  have ht : ¬ bc.length < pc + 2 + off := by omega
  constructor
  · intro h0 hc
    unfold execInstr
    simp only [h0, JUMP_FORWARD_IF_FALSE]
    simp only [hpc, ite_false, hb,
      show pc + 1 + 1 = pc + 2 from rfl, hoff, hc]
    simp [ht, Bind.bind, Except.bind, Pure.pure, Except.pure]
  · intro h0 hc
    unfold execInstr
    simp only [h0, JUMP_FORWARD_IF_TRUE]
    simp only [hpc, ite_false, hb,
      show pc + 1 + 1 = pc + 2 from rfl, hoff, hc]
    have hc' : ¬ regs (bc.getD (pc + 1) 0) = 0 := hc
    simp [ht, Bind.bind, Except.bind, Pure.pure, Except.pure, List.getD] at hc' ⊢
    simp [hc']

/-- C1 witness: a taken forward-if-false jump (offset 2 at pc 0) lands on
pc 4 = offset-field pc (2) + offset (2), and a taken forward-if-true jump. -/
theorem jump_forward_taken_new_pc_witness :
    execInstr trivialFloatOps [0x0B, 0, 2, 0, 1, 1] zeroRegs 0 = .ok (zeroRegs, 4) ∧
    execInstr trivialFloatOps [0x11, 0, 2, 0, 1, 1] (setReg zeroRegs 0 1) 0 =
      .ok (setReg zeroRegs 0 1, 4) := by
  constructor
  · exact (jump_forward_taken_new_pc trivialFloatOps [0x0B, 0, 2, 0, 1, 1] zeroRegs 0 2
      (by decide) rfl (by decide)).1 rfl rfl
  · exact (jump_forward_taken_new_pc trivialFloatOps [0x11, 0, 2, 0, 1, 1]
      (setReg zeroRegs 0 1) 0 2 (by decide) rfl (by decide)).2 rfl (by decide)

/-- C1 counterexample: at pc 0 in a 6-byte buffer, a taken
JUMP_FORWARD_IF_FALSE with offset 2 sets pc to 4, not to the post-operand
pc (4) plus the offset (2) = 6 as the claim states. -/
theorem jump_forward_post_operand_pc_refuted :
    execInstr trivialFloatOps [0x0B, 0, 2, 0, 1, 1] zeroRegs 0 = .ok (zeroRegs, 4) ∧
    (4 : Nat) ≠ 4 + 2 :=
  ⟨rfl, by decide⟩

/-! ## C2: target-based forward jump emitters -/

/-- C2: from position 0, `jump_forward_if_false_to(cond 0, target 6)` emits
offset 2; executing the built program with the condition register zero sets
pc to 4 = target - 2, not to the requested target 6 — the emitter encodes
the offset relative to the post-operand pc while the dispatcher applies it
at the offset-field pc. -/
theorem jump_forward_to_composition_misses_target :
    (BuilderState.new.jumpForwardIfFalseTo 0 6).map (fun b => (b.addI64 1 1 1).build)
      = some (some [0x0B, 0, 2, 0, 0x03, 1, 1, 1]) ∧
    execInstr trivialFloatOps [0x0B, 0, 2, 0, 0x03, 1, 1, 1] zeroRegs 0
      = .ok (zeroRegs, 4) ∧ (4 : Nat) ≠ 6 :=
  ⟨rfl, rfl, by decide⟩

/-! ## C4: label patch resolution in build() -/

theorem patchBytes_length (bc : List Nat) (pos v : Nat) :
    (patchBytes bc pos v).length = bc.length := by
  simp [patchBytes]

theorem patchBytes_getD_lo (bc : List Nat) (pos v : Nat) (h : pos + 1 < bc.length) :
    (patchBytes bc pos v).getD pos 0 = v % 256 := by
  rw [patchBytes, getD_set_ne _ _ _ _ (by omega)]
  exact getD_set_self _ _ _ (by omega)

theorem patchBytes_getD_hi (bc : List Nat) (pos v : Nat) (h : pos + 1 < bc.length) :
    (patchBytes bc pos v).getD (pos + 1) 0 = v / 256 % 256 := by
  rw [patchBytes]
  exact getD_set_self _ _ _ (by simp [List.length_set]; omega)

theorem patchBytes_getD_other (bc : List Nat) (pos v n : Nat)
    (h1 : n ≠ pos) (h2 : n ≠ pos + 1) :
    (patchBytes bc pos v).getD n 0 = bc.getD n 0 := by
  rw [patchBytes, getD_set_ne _ _ _ _ (Ne.symm h2), getD_set_ne _ _ _ _ (Ne.symm h1)]

theorem resolvePending_length (labels : List (Nat × Nat)) (ps : List PendingJump)
    (bc out : List Nat) (h : resolvePending labels ps bc = some out) :
    out.length = bc.length := by
  induction ps generalizing bc with
  | nil =>
    simp [resolvePending] at h
    rw [h]
  | cons q ps ih =>
    unfold resolvePending at h
    cases hl : lookupLabel labels q.labelId <;> rw [hl] at h
    · cases h
    · cases hjt : q.jumpType <;> rw [hjt] at h <;>
        simpa [patchBytes_length] using ih _ h

theorem resolvePending_getD_preserved (labels : List (Nat × Nat))
    (ps : List PendingJump) (bc out : List Nat) (pos : Nat)
    (hsep : ∀ q ∈ ps, q.patchPosition + 2 ≤ pos ∨ pos + 2 ≤ q.patchPosition)
    (h : resolvePending labels ps bc = some out) :
    out.getD pos 0 = bc.getD pos 0 ∧
    out.getD (pos + 1) 0 = bc.getD (pos + 1) 0 := by
  induction ps generalizing bc with
  | nil =>
    simp [resolvePending] at h
    rw [h]
    exact ⟨rfl, rfl⟩
  | cons q ps ih =>
    unfold resolvePending at h
    cases hl : lookupLabel labels q.labelId <;> rw [hl] at h
    · cases h
    · have hq := hsep q (List.mem_cons_self q ps)
      have hrest : ∀ q' ∈ ps, q'.patchPosition + 2 ≤ pos ∨ pos + 2 ≤ q'.patchPosition :=
        fun q' hq' => hsep q' (List.mem_cons_of_mem _ hq')
      cases hjt : q.jumpType <;> rw [hjt] at h <;>
      · have := ih _ hrest h
        rw [this.1, this.2,
          patchBytes_getD_other _ _ _ _ (by omega) (by omega),
          patchBytes_getD_other _ _ _ _ (by omega) (by omega)]
        exact ⟨rfl, rfl⟩

theorem resolvePending_patches (labels : List (Nat × Nat)) (ps : List PendingJump)
    (bc out : List Nat) (p : PendingJump) (L : Nat)
    (hmem : p ∈ ps) (hL : lookupLabel labels p.labelId = some L)
    (hpos : p.patchPosition + 2 ≤ bc.length)
    (hsep : ∀ q ∈ ps, q ≠ p →
      q.patchPosition + 2 ≤ p.patchPosition ∨ p.patchPosition + 2 ≤ q.patchPosition)
    (h : resolvePending labels ps bc = some out) :
    out.getD p.patchPosition 0 + 256 * out.getD (p.patchPosition + 1) 0 =
      pendingPatchValue p L % 65536 := by
  induction ps generalizing bc with
  | nil => cases hmem
  | cons q ps ih =>
    unfold resolvePending at h
    by_cases hqp : p ∈ ps
    · have hrest : ∀ q' ∈ ps, q' ≠ p →
          q'.patchPosition + 2 ≤ p.patchPosition ∨
          p.patchPosition + 2 ≤ q'.patchPosition :=
        fun q' hq' => hsep q' (List.mem_cons_of_mem _ hq')
      cases hl : lookupLabel labels q.labelId <;> rw [hl] at h
      · cases h
      · cases hjt : q.jumpType <;> rw [hjt] at h <;>
          exact ih _ hqp (by simpa [patchBytes_length] using hpos) hrest h
    · have hq : q = p := by
        rcases List.mem_cons.mp hmem with h' | h'
        · exact h'.symm
        · exact absurd h' hqp
      subst hq
      rw [hL] at h
      have hsep' : ∀ q' ∈ ps, q'.patchPosition + 2 ≤ q.patchPosition ∨
          q.patchPosition + 2 ≤ q'.patchPosition := by
        intro q' hq'
        exact hsep q' (List.mem_cons_of_mem _ hq') (fun he => hqp (he ▸ hq'))
      cases hjt : q.jumpType <;> rw [hjt] at h <;>
      · have hpres := resolvePending_getD_preserved labels ps _ out q.patchPosition
          hsep' h
        rw [hpres.1, hpres.2, patchBytes_getD_lo _ _ _ (by omega),
          patchBytes_getD_hi _ _ _ (by omega)]
        simp only [pendingPatchValue, hjt]
        omega

/-- C4: for every pending label patch whose label is placed at position `L`
before `build()` (with the patch regions of distinct pending entries
disjoint), the two offset bytes written at the recorded patch position
decode, for a forward conditional patch, to
`placed_position - patch_byte_position`, and, for a pending absolute jump,
to the absolute target. -/
theorem build_patches_pending (b : BuilderState) (p : PendingJump) (L : Nat)
    (out : List Nat)
    (hmem : p ∈ b.pendingJumps)
    (hL : lookupLabel b.labels p.labelId = some L)
    (hL16 : L < 65536) (hple : p.patchPosition ≤ L)
    (hpos : p.patchPosition + 2 ≤ b.bytecode.length)
    (hsep : ∀ q ∈ b.pendingJumps, q ≠ p →
      q.patchPosition + 2 ≤ p.patchPosition ∨ p.patchPosition + 2 ≤ q.patchPosition)
    (hout : b.build = some out) :
    ((p.jumpType = .forwardIfFalse ∨ p.jumpType = .forwardIfTrue) →
      out.getD p.patchPosition 0 + 256 * out.getD (p.patchPosition + 1) 0 =
        L - p.patchPosition) ∧
    (p.jumpType = .absolute →
      out.getD p.patchPosition 0 + 256 * out.getD (p.patchPosition + 1) 0 = L) := by
  have hmain := resolvePending_patches b.labels b.pendingJumps b.bytecode out p L
    hmem hL hpos hsep hout
  constructor
  · intro hjt
    rcases hjt with hjt | hjt <;>
      simp only [pendingPatchValue, hjt, u16Sub] at hmain <;>
    · rw [hmain]
      omega
  · intro hjt
    simp only [pendingPatchValue, hjt] at hmain
    rw [hmain]
    omega

/-- C4 witness: in `c4Builder` (a forward conditional jump to a label placed
at 14, patch position 2), `build()` writes offset `12 = 14 - 2`. -/
theorem build_patches_pending_witness :
    c4Builder.build = some [11, 3, 12, 0, 1, 1, 5, 0, 0, 0, 0, 0, 0, 0] ∧
    ([11, 3, 12, 0, 1, 1, 5, 0, 0, 0, 0, 0, 0, 0] : List Nat).getD 2 0 +
      256 * ([11, 3, 12, 0, 1, 1, 5, 0, 0, 0, 0, 0, 0, 0] : List Nat).getD 3 0 =
      14 - 2 := by
  refine ⟨rfl, ?_⟩
  exact (build_patches_pending c4Builder ⟨0, 2, .forwardIfFalse⟩ 14
    [11, 3, 12, 0, 1, 1, 5, 0, 0, 0, 0, 0, 0, 0]
    (by decide) rfl (by decide) (by decide) (by decide)
    (by decide) rfl).1
    (Or.inl rfl)

/-! ## C10: timeout sampling -/

/-- `execute_instruction` never produces a `Timeout` error: only the
sampling check in the evaluation loop does. -/
theorem execInstr_ne_timeout (fo : FloatOps) (bc : Bytecode) (regs : Regs)
    (pc t : Nat) : execInstr fo bc regs pc ≠ .error (.timeout t) := by
  intro h
  unfold execInstr at h
  simp only [Bind.bind, Except.bind, Pure.pure, Except.pure] at h
  split at h
  · simp_all
  · split at h <;>
    · try (simp only [readU16, readI64, readF64Bits, Bind.bind, Except.bind,
        Pure.pure, Except.pure] at h)
      repeat first
        | (split at h)
        | (simp only [] at h)
      all_goals try (by_cases hc : bc.length ≤ pc + 1 + 1 + 7 <;> simp [hc] at h)
      all_goals try (repeat first
        | (split at h)
        | (simp only [] at h))
      all_goals try (split_ifs at h)
      all_goals simp_all [throw, throwThe, MonadExceptOf.throw]

theorem evalAux_timeout_mod (fo : FloatOps) (bc : Bytecode) (timeout : Option Nat)
    (elapsed : Nat → Nat) :
    ∀ (fuel : Nat) (regs : Regs) (pc count e c : Nat),
      evalAux fo bc timeout elapsed fuel regs pc count = .err (.timeout e) c →
      c % TIMEOUT_CHECK_INTERVAL = 0 ∧ count < c := by
  intro fuel
  induction fuel with
  | zero =>
    intro regs pc count e c h
    simp [evalAux] at h
  | succ n ih =>
    intro regs pc count e c h
    unfold evalAux at h
    by_cases hpc : pc < bc.length
    · rw [if_pos hpc] at h
      cases hex : execInstr fo bc regs pc with
      | error e' =>
        rw [hex] at h
        cases h
        exact absurd hex (execInstr_ne_timeout fo bc regs pc e)
      | ok rp =>
        obtain ⟨regs', pc'⟩ := rp
        rw [hex] at h
        cases timeout with
        | none =>
          simp only [] at h
          have := ih regs' pc' (count + 1) e c h
          omega
        | some tmo =>
          simp only [] at h
          by_cases hs : (count + 1) % TIMEOUT_CHECK_INTERVAL = 0 ∧ tmo < elapsed (count + 1)
          · rw [if_pos hs] at h
            cases h
            exact ⟨hs.1, by omega⟩
          · rw [if_neg hs] at h
            have := ih regs' pc' (count + 1) e c h
            omega
    · rw [if_neg hpc] at h
      cases h

/-- C10: `eval_program_with_timeout` can only return `Timeout` after an
instruction count that is a positive multiple of the fixed sampling
interval 1000; in particular a run that finishes (normally or with any
error) after fewer than 1000 executed instructions is never a `Timeout`,
no matter what the wall clock did. -/
theorem eval_timeout_only_at_multiples (fo : FloatOps) (bc : Bytecode)
    (timeout : Option Nat) (elapsed : Nat → Nat) (fuel : Nat) (regs : Regs)
    (e c : Nat)
    (h : evalAux fo bc timeout elapsed fuel regs 0 0 = .err (.timeout e) c) :
    c % 1000 = 0 ∧ 1000 ≤ c := by
  have hm := evalAux_timeout_mod fo bc timeout elapsed fuel regs 0 0 e c h
  unfold TIMEOUT_CHECK_INTERVAL at hm
  omega

set_option maxRecDepth 100000 in
/-- C10 witness: an infinite `JMP 0` loop under a zero timeout and a clock
that reads 1 times out exactly at instruction count 1000. -/
theorem eval_timeout_only_at_multiples_witness :
    (1000 : Nat) % 1000 = 0 ∧ 1000 ≤ 1000 :=
  eval_timeout_only_at_multiples trivialFloatOps [0x0C, 0, 0] (some 0)
    (fun _ => 1) 1000 zeroRegs 1 1000 (by rfl)

/-! ## C5: jump target validation -/

theorem execInstr_jmp_eq (fo : FloatOps) (bc : Bytecode) (regs : Regs) (pc : Nat)
    (hop : bc.getD pc 0 = JMP) (hlen : pc + 2 < bc.length) :
    execInstr fo bc regs pc =
      if bc.length < bc.getD (pc + 1) 0 + 256 * bc.getD (pc + 2) 0 then
        .error (.invalidJumpTarget (bc.getD (pc + 1) 0 + 256 * bc.getD (pc + 2) 0))
      else .ok (regs, bc.getD (pc + 1) 0 + 256 * bc.getD (pc + 2) 0) := by
  have hpc : ¬ bc.length ≤ pc := by omega
  have hb : ¬ bc.length ≤ pc + 1 + 1 := by omega
  have hr : ¬ bc.length ≤ pc + 1 + 1 := by omega
  unfold execInstr readU16
  simp only [hop, JMP]
  simp only [hpc, ite_false, hb, hr, Bind.bind, Except.bind, Pure.pure,
    Except.pure, show pc + 1 + 1 = pc + 2 from rfl]

theorem execInstr_jf_eq (fo : FloatOps) (bc : Bytecode) (regs : Regs) (pc : Nat)
    (hlen : pc + 3 < bc.length) :
    (bc.getD pc 0 = JUMP_FORWARD_IF_FALSE →
      execInstr fo bc regs pc =
        if bc.length < pc + 2 + (bc.getD (pc + 2) 0 + 256 * bc.getD (pc + 3) 0) then
          .error (.invalidJumpTarget
            (pc + 2 + (bc.getD (pc + 2) 0 + 256 * bc.getD (pc + 3) 0)))
        else if regs (bc.getD (pc + 1) 0) = 0 then
          .ok (regs, pc + 2 + (bc.getD (pc + 2) 0 + 256 * bc.getD (pc + 3) 0))
        else .ok (regs, pc + 4)) ∧
    (bc.getD pc 0 = JUMP_FORWARD_IF_TRUE →
      execInstr fo bc regs pc =
        if bc.length < pc + 2 + (bc.getD (pc + 2) 0 + 256 * bc.getD (pc + 3) 0) then
          .error (.invalidJumpTarget
            (pc + 2 + (bc.getD (pc + 2) 0 + 256 * bc.getD (pc + 3) 0)))
        else if regs (bc.getD (pc + 1) 0) = 0 then .ok (regs, pc + 4)
        else .ok (regs, pc + 2 + (bc.getD (pc + 2) 0 + 256 * bc.getD (pc + 3) 0))) := by
  have hpc : ¬ bc.length ≤ pc := by omega
  have hb : ¬ bc.length ≤ pc + 1 + 2 := by omega
  have hr : ¬ bc.length ≤ pc + 2 + 1 := by omega
  constructor <;> intro h0 <;>
  · unfold execInstr readU16
    simp only [h0, JUMP_FORWARD_IF_FALSE, JUMP_FORWARD_IF_TRUE]
    simp only [hpc, ite_false, hb, hr, Bind.bind, Except.bind, Pure.pure,
      Except.pure, show pc + 1 + 1 = pc + 2 from rfl,
      show pc + 2 + 1 = pc + 3 from rfl, show pc + 1 + 1 + 2 = pc + 4 from rfl]
    try (simp only [ne_eq, ite_not])

theorem execInstr_jb_eq (fo : FloatOps) (bc : Bytecode) (regs : Regs) (pc : Nat)
    (hlen : pc + 3 < bc.length) :
    (bc.getD pc 0 = JUMP_BACKWARD_IF_FALSE →
      execInstr fo bc regs pc =
        if pc + 4 < bc.getD (pc + 2) 0 + 256 * bc.getD (pc + 3) 0 then
          .error (.invalidJumpTarget
            (jumpBackPayload (pc + 4) (bc.getD (pc + 2) 0 + 256 * bc.getD (pc + 3) 0)))
        else if regs (bc.getD (pc + 1) 0) = 0 then
          .ok (regs, pc + 4 - (bc.getD (pc + 2) 0 + 256 * bc.getD (pc + 3) 0))
        else .ok (regs, pc + 4)) ∧
    (bc.getD pc 0 = JUMP_BACKWARD_IF_TRUE →
      execInstr fo bc regs pc =
        if pc + 4 < bc.getD (pc + 2) 0 + 256 * bc.getD (pc + 3) 0 then
          .error (.invalidJumpTarget
            (jumpBackPayload (pc + 4) (bc.getD (pc + 2) 0 + 256 * bc.getD (pc + 3) 0)))
        else if regs (bc.getD (pc + 1) 0) = 0 then .ok (regs, pc + 4)
        else .ok (regs, pc + 4 - (bc.getD (pc + 2) 0 + 256 * bc.getD (pc + 3) 0))) := by
  have hpc : ¬ bc.length ≤ pc := by omega
  have hb : ¬ bc.length ≤ pc + 1 + 2 := by omega
  have hr : ¬ bc.length ≤ pc + 2 + 1 := by omega
  constructor <;> intro h0 <;>
  · unfold execInstr readU16
    simp only [h0, JUMP_BACKWARD_IF_FALSE, JUMP_BACKWARD_IF_TRUE]
    simp only [hpc, ite_false, hb, hr, Bind.bind, Except.bind, Pure.pure,
      Except.pure, show pc + 1 + 1 = pc + 2 from rfl,
      show pc + 2 + 1 = pc + 3 from rfl, show pc + 1 + 1 + 2 = pc + 4 from rfl]
    try (simp only [ne_eq, ite_not])

/-- With the loop guard failed (`pc ≥ len`), the evaluation loop returns
normally. -/
theorem evalAux_done (fo : FloatOps) (bc : Bytecode) (timeout : Option Nat)
    (elapsed : Nat → Nat) (fuel : Nat) (regs : Regs) (pc count : Nat)
    (h : bc.length ≤ pc) :
    evalAux fo bc timeout elapsed (fuel + 1) regs pc count = .ok regs count := by
  unfold evalAux
  rw [if_neg (by omega)]

/-- C5: for every decoded jump instruction (JMP, forward conditional,
backward conditional), the dispatcher fails with `InvalidJumpTarget`
exactly when the width-promoted computed target lies outside
`[0, len(bytecode)]`; an in-range target is accepted (a taken jump sets pc
to exactly the target), and a taken jump whose target equals `len` makes
the (untimed) evaluation loop terminate normally. -/
theorem jump_validation_exact (fo : FloatOps) (bc : Bytecode) (regs : Regs)
    (pc : Nat) (t : Int) (ht : jumpTargetI bc pc = some t) :
    ((∃ u, execInstr fo bc regs pc = .error (.invalidJumpTarget u)) ↔
      (t < 0 ∨ (bc.length : Int) < t)) ∧
    (0 ≤ t → t ≤ (bc.length : Int) →
      ∃ pc', execInstr fo bc regs pc = .ok (regs, pc') ∧
        (jumpTaken bc regs pc = true → (pc' : Int) = t)) ∧
    (t = (bc.length : Int) → jumpTaken bc regs pc = true →
      ∀ (elapsed : Nat → Nat) (fuel count : Nat),
        evalAux fo bc none elapsed (fuel + 2) regs pc count =
          .ok regs (count + 1)) := by
  unfold jumpTargetI at ht
  dsimp only at ht
  split_ifs at ht with h1 h2 h3
  · -- JMP
    obtain ⟨hop, hb⟩ := h1
    have hts : t = ((bc.getD (pc + 1) 0 + 256 * bc.getD (pc + 2) 0 : Nat) : Int) := by
      exact (Option.some.injEq _ _).mp ht.symm
    have hexe := execInstr_jmp_eq fo bc regs pc hop hb
    have htk : jumpTaken bc regs pc = true := by
      unfold jumpTaken
      dsimp only
      rw [hop]
      simp [JMP]
    refine ⟨?_, ?_, ?_⟩
    · rw [hexe]
      by_cases hlt : bc.length < bc.getD (pc + 1) 0 + 256 * bc.getD (pc + 2) 0
      · simp only [if_pos hlt]
        constructor
        · intro _
          right
          rw [hts]
          exact_mod_cast hlt
        · exact fun _ => ⟨_, rfl⟩
      · simp only [if_neg hlt]
        constructor
        · rintro ⟨u, hu⟩
          cases hu
        · intro hor
          rw [hts] at hor
          exact absurd hor (by push_cast; omega)
    · intro _ hle
      have hlt : ¬ bc.length < bc.getD (pc + 1) 0 + 256 * bc.getD (pc + 2) 0 := by
        rw [hts] at hle
        exact_mod_cast not_lt.mpr (by exact_mod_cast hle)
      exact ⟨_, by rw [hexe, if_neg hlt], fun _ => hts.symm⟩
    · intro heq _ elapsed fuel count
      have heqn : bc.getD (pc + 1) 0 + 256 * bc.getD (pc + 2) 0 = bc.length := by
        rw [hts] at heq
        exact_mod_cast heq
      have hlt : ¬ bc.length < bc.getD (pc + 1) 0 + 256 * bc.getD (pc + 2) 0 := by
        omega
      show evalAux fo bc none elapsed (fuel + 1 + 1) regs pc count = .ok regs (count + 1)
      unfold evalAux
      rw [if_pos (by omega), hexe, if_neg hlt]
      simp only []
      rw [heqn]
      exact evalAux_done fo bc none elapsed fuel regs bc.length (count + 1) le_rfl
  · -- forward conditional
    obtain ⟨hop, hb⟩ := h2
    have hts : t = ((pc + 2 + (bc.getD (pc + 2) 0 + 256 * bc.getD (pc + 3) 0) : Nat) : Int) := by
      exact (Option.some.injEq _ _).mp ht.symm
    have hexe : execInstr fo bc regs pc =
        if bc.length < pc + 2 + (bc.getD (pc + 2) 0 + 256 * bc.getD (pc + 3) 0) then
          .error (.invalidJumpTarget
            (pc + 2 + (bc.getD (pc + 2) 0 + 256 * bc.getD (pc + 3) 0)))
        else if regs (bc.getD (pc + 1) 0) = 0 then
          .ok (regs, if bc.getD pc 0 = JUMP_FORWARD_IF_FALSE then
            pc + 2 + (bc.getD (pc + 2) 0 + 256 * bc.getD (pc + 3) 0) else pc + 4)
        else
          .ok (regs, if bc.getD pc 0 = JUMP_FORWARD_IF_FALSE then pc + 4 else
            pc + 2 + (bc.getD (pc + 2) 0 + 256 * bc.getD (pc + 3) 0)) := by
      rcases hop with hop | hop
      · have hop' : bc[pc]?.getD 0 = JUMP_FORWARD_IF_FALSE := by
          simpa [List.getD] using hop
        rw [(execInstr_jf_eq fo bc regs pc hb).1 hop]
        simp [hop']
      · have hop' : bc[pc]?.getD 0 = JUMP_FORWARD_IF_TRUE := by
          simpa [List.getD] using hop
        rw [(execInstr_jf_eq fo bc regs pc hb).2 hop]
        simp [hop', JUMP_FORWARD_IF_FALSE, JUMP_FORWARD_IF_TRUE]
    have htk : jumpTaken bc regs pc = true ↔
        (if bc.getD pc 0 = JUMP_FORWARD_IF_FALSE then regs (bc.getD (pc + 1) 0) = 0
         else ¬ regs (bc.getD (pc + 1) 0) = 0) := by
      rcases hop with hop | hop <;>
      · unfold jumpTaken
        dsimp only
        rw [hop]
        simp [JMP, JUMP_FORWARD_IF_FALSE, JUMP_FORWARD_IF_TRUE,
          JUMP_BACKWARD_IF_FALSE, JUMP_BACKWARD_IF_TRUE]
    refine ⟨?_, ?_, ?_⟩
    · rw [hexe]
      by_cases hlt : bc.length < pc + 2 + (bc.getD (pc + 2) 0 + 256 * bc.getD (pc + 3) 0)
      · simp only [if_pos hlt]
        constructor
        · intro _
          right
          rw [hts]
          exact_mod_cast hlt
        · exact fun _ => ⟨_, rfl⟩
      · simp only [if_neg hlt]
        constructor
        · rintro ⟨u, hu⟩
          split_ifs at hu
        · intro hor
          rw [hts] at hor
          exact absurd hor (by push_cast; omega)
    · intro _ hle
      have hlt : ¬ bc.length < pc + 2 + (bc.getD (pc + 2) 0 + 256 * bc.getD (pc + 3) 0) := by
        rw [hts] at hle
        exact_mod_cast not_lt.mpr (by exact_mod_cast hle)
      rw [hexe, if_neg hlt]
      by_cases hc : regs (bc.getD (pc + 1) 0) = 0
      · rw [if_pos hc]
        refine ⟨_, rfl, ?_⟩
        intro htk'
        rw [htk] at htk'
        split_ifs at htk' ⊢ with hff
        · exact hts.symm
        · exact absurd hc htk'
      · rw [if_neg hc]
        refine ⟨_, rfl, ?_⟩
        intro htk'
        rw [htk] at htk'
        split_ifs at htk' ⊢ with hff
        · exact absurd htk' (by simpa using hc)
        · exact hts.symm
    · intro heq htk' elapsed fuel count
      have heqn : pc + 2 + (bc.getD (pc + 2) 0 + 256 * bc.getD (pc + 3) 0) = bc.length := by
        rw [hts] at heq
        exact_mod_cast heq
      have hlt : ¬ bc.length < pc + 2 + (bc.getD (pc + 2) 0 + 256 * bc.getD (pc + 3) 0) := by
        omega
      rw [htk] at htk'
      show evalAux fo bc none elapsed (fuel + 1 + 1) regs pc count = .ok regs (count + 1)
      unfold evalAux
      rw [if_pos (by omega), hexe, if_neg hlt]
      split_ifs at htk' with hff
      · rw [if_pos htk']
        simp only [if_pos hff]
        rw [heqn]
        exact evalAux_done fo bc none elapsed fuel regs bc.length (count + 1) le_rfl
      · rw [if_neg htk']
        simp only [if_neg hff]
        rw [heqn]
        exact evalAux_done fo bc none elapsed fuel regs bc.length (count + 1) le_rfl
  · -- backward conditional
    obtain ⟨hop, hb⟩ := h3
    have hts : t = ((pc + 4 : Int) -
        (bc.getD (pc + 2) 0 + 256 * bc.getD (pc + 3) 0 : Nat)) := by
      exact (Option.some.injEq _ _).mp ht.symm
    have hexe : execInstr fo bc regs pc =
        if pc + 4 < bc.getD (pc + 2) 0 + 256 * bc.getD (pc + 3) 0 then
          .error (.invalidJumpTarget
            (jumpBackPayload (pc + 4) (bc.getD (pc + 2) 0 + 256 * bc.getD (pc + 3) 0)))
        else if regs (bc.getD (pc + 1) 0) = 0 then
          .ok (regs, if bc.getD pc 0 = JUMP_BACKWARD_IF_FALSE then
            pc + 4 - (bc.getD (pc + 2) 0 + 256 * bc.getD (pc + 3) 0) else pc + 4)
        else
          .ok (regs, if bc.getD pc 0 = JUMP_BACKWARD_IF_FALSE then pc + 4 else
            pc + 4 - (bc.getD (pc + 2) 0 + 256 * bc.getD (pc + 3) 0)) := by
      rcases hop with hop | hop
      · have hop' : bc[pc]?.getD 0 = JUMP_BACKWARD_IF_FALSE := by
          simpa [List.getD] using hop
        rw [(execInstr_jb_eq fo bc regs pc hb).1 hop]
        simp [hop']
      · have hop' : bc[pc]?.getD 0 = JUMP_BACKWARD_IF_TRUE := by
          simpa [List.getD] using hop
        rw [(execInstr_jb_eq fo bc regs pc hb).2 hop]
        simp [hop', JUMP_BACKWARD_IF_FALSE, JUMP_BACKWARD_IF_TRUE]
    have htk : jumpTaken bc regs pc = true ↔
        (if bc.getD pc 0 = JUMP_BACKWARD_IF_FALSE then regs (bc.getD (pc + 1) 0) = 0
         else ¬ regs (bc.getD (pc + 1) 0) = 0) := by
      rcases hop with hop | hop <;>
      · unfold jumpTaken
        dsimp only
        rw [hop]
        simp [JMP, JUMP_FORWARD_IF_FALSE, JUMP_FORWARD_IF_TRUE,
          JUMP_BACKWARD_IF_FALSE, JUMP_BACKWARD_IF_TRUE]
    refine ⟨?_, ?_, ?_⟩
    · rw [hexe]
      by_cases hlt : pc + 4 < bc.getD (pc + 2) 0 + 256 * bc.getD (pc + 3) 0
      · simp only [if_pos hlt]
        constructor
        · intro _
          left
          rw [hts]
          push_cast
          omega
        · exact fun _ => ⟨_, rfl⟩
      · simp only [if_neg hlt]
        constructor
        · rintro ⟨u, hu⟩
          split_ifs at hu
        · intro hor
          rw [hts] at hor
          exact absurd hor (by push_cast; omega)
    · intro h0 _
      have hlt : ¬ pc + 4 < bc.getD (pc + 2) 0 + 256 * bc.getD (pc + 3) 0 := by
        rw [hts] at h0
        push_cast at h0
        omega
      rw [hexe, if_neg hlt]
      by_cases hc : regs (bc.getD (pc + 1) 0) = 0
      · rw [if_pos hc]
        refine ⟨_, rfl, ?_⟩
        intro htk'
        rw [htk] at htk'
        split_ifs at htk' ⊢ with hff
        · rw [hts]
          push_cast
          omega
        · exact absurd hc htk'
      · rw [if_neg hc]
        refine ⟨_, rfl, ?_⟩
        intro htk'
        rw [htk] at htk'
        split_ifs at htk' ⊢ with hff
        · exact absurd htk' (by simpa using hc)
        · rw [hts]
          push_cast
          omega
    · intro heq htk' elapsed fuel count
      have hlen4 : pc + 4 ≤ bc.length := by omega
      have heqn : pc + 4 - (bc.getD (pc + 2) 0 + 256 * bc.getD (pc + 3) 0) = bc.length ∧
          bc.getD (pc + 2) 0 + 256 * bc.getD (pc + 3) 0 ≤ pc + 4 := by
        rw [hts] at heq
        constructor <;> omega
      have hlt : ¬ pc + 4 < bc.getD (pc + 2) 0 + 256 * bc.getD (pc + 3) 0 := by
        omega
      rw [htk] at htk'
      show evalAux fo bc none elapsed (fuel + 1 + 1) regs pc count = .ok regs (count + 1)
      unfold evalAux
      rw [if_pos (by omega), hexe, if_neg hlt]
      split_ifs at htk' with hff
      · rw [if_pos htk']
        simp only [if_pos hff]
        rw [heqn.1]
        exact evalAux_done fo bc none elapsed fuel regs bc.length (count + 1) le_rfl
      · rw [if_neg htk']
        simp only [if_neg hff]
        rw [heqn.1]
        exact evalAux_done fo bc none elapsed fuel regs bc.length (count + 1) le_rfl

/-- C5 witness: `JMP 3` in a 3-byte program: target = len is accepted and
the loop terminates normally after that one instruction. -/
theorem jump_validation_exact_witness :
    evalAux trivialFloatOps [0x0C, 3, 0] none (fun _ => 0) 2 zeroRegs 0 0 =
      .ok zeroRegs 1 :=
  (jump_validation_exact trivialFloatOps [0x0C, 3, 0] zeroRegs 0 3
    (by decide)).2.2 (by norm_num) (by decide) (fun _ => 0) 0 0

/-! ## C3: CALL_HOST semantics (spec-modelled) -/

/-- C3: executing CALL_HOST with register operand `reg` reads `fn_index`
from register `current_base + reg`; if no host entry exists there it fails
with `InvalidConstIndex(fn_index)`; otherwise it pushes a host-call frame
with `base = current_base + reg` and `top = base + n_regs - 1`, invokes
the callback with that base and the (capacity-ensured) register file, pops
the frame (the final call stack is the original one), surfaces a callback
error message as `HostError(msg)`, and on success keeps the callback's
register file. -/
theorem call_host_semantics (vm : HostVM) (reg : Nat) :
    (vm.hostFunctions.funcs[vm.registers.get (vm.currentBase + reg)]? = none →
      execCallHost vm reg =
        .error (.invalidConstIndex (vm.registers.get (vm.currentBase + reg)))) ∧
    (∀ func meta,
      vm.hostFunctions.funcs[vm.registers.get (vm.currentBase + reg)]? = some func →
      vm.hostFunctions.metadata[vm.registers.get (vm.currentBase + reg)]? = some meta →
      (execCallHostAux vm reg).1 =
        some (CallInfo.callHost (vm.currentBase + reg)
          (vm.currentBase + reg + meta.numRegisters - 1)
          (vm.registers.get (vm.currentBase + reg))) ∧
      (∀ msg,
        func (vm.currentBase + reg)
            (vm.registers.ensureLen
              (vm.currentBase + reg + meta.numRegisters - 1 + 1)) = .error msg →
        execCallHost vm reg = .error (.hostError msg)) ∧
      (∀ regs',
        func (vm.currentBase + reg)
            (vm.registers.ensureLen
              (vm.currentBase + reg + meta.numRegisters - 1 + 1)) = .ok regs' →
        execCallHost vm reg =
          .ok { vm with registers := regs', callStack := vm.callStack })) := by
  constructor
  · intro hnone
    unfold execCallHost execCallHostAux
    dsimp only
    rw [hnone]
  · intro func meta hf hm
    refine ⟨?_, ?_, ?_⟩
    · unfold execCallHostAux
      dsimp only
      rw [hf, hm]
      cases hc : func (vm.currentBase + reg)
          (vm.registers.ensureLen
            (vm.currentBase + reg + meta.numRegisters - 1 + 1)) <;>
        simp [hc]
    · intro msg hmsg
      unfold execCallHost execCallHostAux
      dsimp only
      rw [hf, hm]
      simp [hmsg]
    · intro regs' hok
      unfold execCallHost execCallHostAux
      dsimp only
      rw [hf, hm]
      simp [hok]

/-- C3 witness: the test_call_host_basic scenario — `inc` at host index 0,
register 10 holding the index, register 11 holding 41; the call writes 42
into register 10 and restores the call stack. -/
theorem call_host_semantics_witness :
    execCallHost c3VM 10 =
      .ok { c3VM with
        registers := ((Registers.new.set 10 0).set 11 41).set 10 42,
        callStack := c3VM.callStack } ∧
    (((Registers.new.set 10 0).set 11 41).set 10 42).get 10 = 42 := by
  constructor
  · exact ((call_host_semantics c3VM 10).2 incHostFn ⟨"inc", 1, 1, 2⟩ rfl rfl).2.2
      (((Registers.new.set 10 0).set 11 41).set 10 42) rfl
  · rfl

/-! ## C9: disassembler totality and first-error reporting -/

theorem Reach_le (bc : Bytecode) (p : Nat) (h : Reach bc p) : p ≤ bc.length := by
  induction h with
  | zero => omega
  | step p n _ _ _ hle _ => exact hle

theorem consLine_good (bc : Bytecode) (L : DisLine) (r : DisasmResult)
    (hL : LineOk bc L) (h : GoodResult bc r) : GoodResult bc (consLine L r) := by
  rcases h with ⟨ls, hls, hok⟩ | ⟨e, he, hm⟩
  · exact Or.inl ⟨L :: ls, by rw [hls]; rfl, by
      intro l hl
      rcases List.mem_cons.mp hl with h | h
      · exact h ▸ hL
      · exact hok l h⟩
  · exact Or.inr ⟨e, by rw [he]; rfl, hm⟩

set_option maxHeartbeats 1000000 in
theorem fbAux_good (bc : Bytecode) :
    ∀ (fuel pc : Nat), Reach bc pc → bc.length < pc + fuel →
      GoodResult bc (fbAux bc fuel pc) := by
  intro fuel
  induction fuel with
  | zero =>
    intro pc hr hf
    have := Reach_le bc pc hr
    omega
  | succ n ih =>
    intro pc hr hf
    by_cases hpc : pc < bc.length
    case neg =>
      refine Or.inl ⟨[], ?_, by simp⟩
      simp only [fbAux]
      rw [if_neg hpc]
    case pos =>
      simp only [fbAux]
      rw [if_pos hpc]
      split
      · -- LOAD_I64
        rename_i heq
        split_ifs with h1 h2
        · exact Or.inr ⟨_, rfl, hr, hpc, ⟨10, by rw [heq]; rfl, by omega⟩, by rw [heq]; rfl⟩
        · exact Or.inr ⟨_, rfl, hr, hpc, ⟨10, by rw [heq]; rfl, by omega⟩, by rw [heq]; rfl⟩
        · exact consLine_good bc _ _ ⟨hr, hpc, by rw [heq]; rfl, 10, by rw [heq]; rfl, by dsimp only; omega⟩
            (ih (pc + 1 + 9) (Reach.step pc 10 hr hpc (by rw [heq]; rfl) (by omega))
              (by omega))
      · -- LOAD_F64
        rename_i heq
        split_ifs with h1 h2
        · exact Or.inr ⟨_, rfl, hr, hpc, ⟨10, by rw [heq]; rfl, by omega⟩, by rw [heq]; rfl⟩
        · exact Or.inr ⟨_, rfl, hr, hpc, ⟨10, by rw [heq]; rfl, by omega⟩, by rw [heq]; rfl⟩
        · exact consLine_good bc _ _ ⟨hr, hpc, by rw [heq]; rfl, 10, by rw [heq]; rfl, by dsimp only; omega⟩
            (ih (pc + 1 + 9) (Reach.step pc 10 hr hpc (by rw [heq]; rfl) (by omega))
              (by omega))
      · -- LOAD_CONST_VALUE
        rename_i heq
        split_ifs with h1
        · exact Or.inr ⟨_, rfl, hr, hpc, ⟨4, by rw [heq]; rfl, by omega⟩, by rw [heq]; rfl⟩
        · exact consLine_good bc _ _ ⟨hr, hpc, by rw [heq]; rfl, 4, by rw [heq]; rfl, by dsimp only; omega⟩
            (ih (pc + 1 + 3) (Reach.step pc 4 hr hpc (by rw [heq]; rfl) (by omega))
              (by omega))
      · -- LOAD_CONST_SLICE
        rename_i heq
        split_ifs with h1
        · exact Or.inr ⟨_, rfl, hr, hpc, ⟨4, by rw [heq]; rfl, by omega⟩, by rw [heq]; rfl⟩
        · exact consLine_good bc _ _ ⟨hr, hpc, by rw [heq]; rfl, 4, by rw [heq]; rfl, by dsimp only; omega⟩
            (ih (pc + 1 + 3) (Reach.step pc 4 hr hpc (by rw [heq]; rfl) (by omega))
              (by omega))
      · -- ADD_I64
        rename_i heq
        split_ifs with h1
        · exact Or.inr ⟨_, rfl, hr, hpc, ⟨4, by rw [heq]; rfl, by omega⟩, by rw [heq]; rfl⟩
        · exact consLine_good bc _ _ ⟨hr, hpc, by rw [heq]; rfl, 4, by rw [heq]; rfl, by dsimp only; omega⟩
            (ih (pc + 1 + 3) (Reach.step pc 4 hr hpc (by rw [heq]; rfl) (by omega))
              (by omega))
      · -- SUB_I64
        rename_i heq
        split_ifs with h1
        · exact Or.inr ⟨_, rfl, hr, hpc, ⟨4, by rw [heq]; rfl, by omega⟩, by rw [heq]; rfl⟩
        · exact consLine_good bc _ _ ⟨hr, hpc, by rw [heq]; rfl, 4, by rw [heq]; rfl, by dsimp only; omega⟩
            (ih (pc + 1 + 3) (Reach.step pc 4 hr hpc (by rw [heq]; rfl) (by omega))
              (by omega))
      · -- MUL_I64
        rename_i heq
        split_ifs with h1
        · exact Or.inr ⟨_, rfl, hr, hpc, ⟨4, by rw [heq]; rfl, by omega⟩, by rw [heq]; rfl⟩
        · exact consLine_good bc _ _ ⟨hr, hpc, by rw [heq]; rfl, 4, by rw [heq]; rfl, by dsimp only; omega⟩
            (ih (pc + 1 + 3) (Reach.step pc 4 hr hpc (by rw [heq]; rfl) (by omega))
              (by omega))
      · -- GT_I64
        rename_i heq
        split_ifs with h1
        · exact Or.inr ⟨_, rfl, hr, hpc, ⟨4, by rw [heq]; rfl, by omega⟩, by rw [heq]; rfl⟩
        · exact consLine_good bc _ _ ⟨hr, hpc, by rw [heq]; rfl, 4, by rw [heq]; rfl, by dsimp only; omega⟩
            (ih (pc + 1 + 3) (Reach.step pc 4 hr hpc (by rw [heq]; rfl) (by omega))
              (by omega))
      · -- GTE_I64
        rename_i heq
        split_ifs with h1
        · exact Or.inr ⟨_, rfl, hr, hpc, ⟨4, by rw [heq]; rfl, by omega⟩, by rw [heq]; rfl⟩
        · exact consLine_good bc _ _ ⟨hr, hpc, by rw [heq]; rfl, 4, by rw [heq]; rfl, by dsimp only; omega⟩
            (ih (pc + 1 + 3) (Reach.step pc 4 hr hpc (by rw [heq]; rfl) (by omega))
              (by omega))
      · -- LT_I64
        rename_i heq
        split_ifs with h1
        · exact Or.inr ⟨_, rfl, hr, hpc, ⟨4, by rw [heq]; rfl, by omega⟩, by rw [heq]; rfl⟩
        · exact consLine_good bc _ _ ⟨hr, hpc, by rw [heq]; rfl, 4, by rw [heq]; rfl, by dsimp only; omega⟩
            (ih (pc + 1 + 3) (Reach.step pc 4 hr hpc (by rw [heq]; rfl) (by omega))
              (by omega))
      · -- LTE_I64
        rename_i heq
        split_ifs with h1
        · exact Or.inr ⟨_, rfl, hr, hpc, ⟨4, by rw [heq]; rfl, by omega⟩, by rw [heq]; rfl⟩
        · exact consLine_good bc _ _ ⟨hr, hpc, by rw [heq]; rfl, 4, by rw [heq]; rfl, by dsimp only; omega⟩
            (ih (pc + 1 + 3) (Reach.step pc 4 hr hpc (by rw [heq]; rfl) (by omega))
              (by omega))
      · -- ADD_F64
        rename_i heq
        split_ifs with h1
        · exact Or.inr ⟨_, rfl, hr, hpc, ⟨4, by rw [heq]; rfl, by omega⟩, by rw [heq]; rfl⟩
        · exact consLine_good bc _ _ ⟨hr, hpc, by rw [heq]; rfl, 4, by rw [heq]; rfl, by dsimp only; omega⟩
            (ih (pc + 1 + 3) (Reach.step pc 4 hr hpc (by rw [heq]; rfl) (by omega))
              (by omega))
      · -- SUB_F64
        rename_i heq
        split_ifs with h1
        · exact Or.inr ⟨_, rfl, hr, hpc, ⟨4, by rw [heq]; rfl, by omega⟩, by rw [heq]; rfl⟩
        · exact consLine_good bc _ _ ⟨hr, hpc, by rw [heq]; rfl, 4, by rw [heq]; rfl, by dsimp only; omega⟩
            (ih (pc + 1 + 3) (Reach.step pc 4 hr hpc (by rw [heq]; rfl) (by omega))
              (by omega))
      · -- MUL_F64
        rename_i heq
        split_ifs with h1
        · exact Or.inr ⟨_, rfl, hr, hpc, ⟨4, by rw [heq]; rfl, by omega⟩, by rw [heq]; rfl⟩
        · exact consLine_good bc _ _ ⟨hr, hpc, by rw [heq]; rfl, 4, by rw [heq]; rfl, by dsimp only; omega⟩
            (ih (pc + 1 + 3) (Reach.step pc 4 hr hpc (by rw [heq]; rfl) (by omega))
              (by omega))
      · -- GT_F64
        rename_i heq
        split_ifs with h1
        · exact Or.inr ⟨_, rfl, hr, hpc, ⟨4, by rw [heq]; rfl, by omega⟩, by rw [heq]; rfl⟩
        · exact consLine_good bc _ _ ⟨hr, hpc, by rw [heq]; rfl, 4, by rw [heq]; rfl, by dsimp only; omega⟩
            (ih (pc + 1 + 3) (Reach.step pc 4 hr hpc (by rw [heq]; rfl) (by omega))
              (by omega))
      · -- GTE_F64
        rename_i heq
        split_ifs with h1
        · exact Or.inr ⟨_, rfl, hr, hpc, ⟨4, by rw [heq]; rfl, by omega⟩, by rw [heq]; rfl⟩
        · exact consLine_good bc _ _ ⟨hr, hpc, by rw [heq]; rfl, 4, by rw [heq]; rfl, by dsimp only; omega⟩
            (ih (pc + 1 + 3) (Reach.step pc 4 hr hpc (by rw [heq]; rfl) (by omega))
              (by omega))
      · -- LT_F64
        rename_i heq
        split_ifs with h1
        · exact Or.inr ⟨_, rfl, hr, hpc, ⟨4, by rw [heq]; rfl, by omega⟩, by rw [heq]; rfl⟩
        · exact consLine_good bc _ _ ⟨hr, hpc, by rw [heq]; rfl, 4, by rw [heq]; rfl, by dsimp only; omega⟩
            (ih (pc + 1 + 3) (Reach.step pc 4 hr hpc (by rw [heq]; rfl) (by omega))
              (by omega))
      · -- LTE_F64
        rename_i heq
        split_ifs with h1
        · exact Or.inr ⟨_, rfl, hr, hpc, ⟨4, by rw [heq]; rfl, by omega⟩, by rw [heq]; rfl⟩
        · exact consLine_good bc _ _ ⟨hr, hpc, by rw [heq]; rfl, 4, by rw [heq]; rfl, by dsimp only; omega⟩
            (ih (pc + 1 + 3) (Reach.step pc 4 hr hpc (by rw [heq]; rfl) (by omega))
              (by omega))
      · -- JUMP_FORWARD_IF_FALSE
        rename_i heq
        split_ifs with h1
        · exact Or.inr ⟨_, rfl, hr, hpc, ⟨4, by rw [heq]; rfl, by omega⟩, by rw [heq]; rfl⟩
        · exact consLine_good bc _ _ ⟨hr, hpc, by rw [heq]; rfl, 4, by rw [heq]; rfl, by dsimp only; omega⟩
            (ih (pc + 1 + 3) (Reach.step pc 4 hr hpc (by rw [heq]; rfl) (by omega))
              (by omega))
      · -- JUMP_FORWARD_IF_TRUE
        rename_i heq
        split_ifs with h1
        · exact Or.inr ⟨_, rfl, hr, hpc, ⟨4, by rw [heq]; rfl, by omega⟩, by rw [heq]; rfl⟩
        · exact consLine_good bc _ _ ⟨hr, hpc, by rw [heq]; rfl, 4, by rw [heq]; rfl, by dsimp only; omega⟩
            (ih (pc + 1 + 3) (Reach.step pc 4 hr hpc (by rw [heq]; rfl) (by omega))
              (by omega))
      · -- JUMP_BACKWARD_IF_FALSE
        rename_i heq
        split_ifs with h1
        · exact Or.inr ⟨_, rfl, hr, hpc, ⟨4, by rw [heq]; rfl, by omega⟩, by rw [heq]; rfl⟩
        · exact consLine_good bc _ _ ⟨hr, hpc, by rw [heq]; rfl, 4, by rw [heq]; rfl, by dsimp only; omega⟩
            (ih (pc + 1 + 3) (Reach.step pc 4 hr hpc (by rw [heq]; rfl) (by omega))
              (by omega))
      · -- JUMP_BACKWARD_IF_TRUE
        rename_i heq
        split_ifs with h1
        · exact Or.inr ⟨_, rfl, hr, hpc, ⟨4, by rw [heq]; rfl, by omega⟩, by rw [heq]; rfl⟩
        · exact consLine_good bc _ _ ⟨hr, hpc, by rw [heq]; rfl, 4, by rw [heq]; rfl, by dsimp only; omega⟩
            (ih (pc + 1 + 3) (Reach.step pc 4 hr hpc (by rw [heq]; rfl) (by omega))
              (by omega))
      · -- JMP
        rename_i heq
        split_ifs with h1
        · exact Or.inr ⟨_, rfl, hr, hpc, ⟨3, by rw [heq]; rfl, by omega⟩, by rw [heq]; rfl⟩
        · exact consLine_good bc _ _ ⟨hr, hpc, by rw [heq]; rfl, 3, by rw [heq]; rfl, by dsimp only; omega⟩
            (ih (pc + 1 + 2) (Reach.step pc 3 hr hpc (by rw [heq]; rfl) (by omega))
              (by omega))
      · -- I64_TO_F64
        rename_i heq
        split_ifs with h1
        · exact Or.inr ⟨_, rfl, hr, hpc, ⟨3, by rw [heq]; rfl, by omega⟩, by rw [heq]; rfl⟩
        · exact consLine_good bc _ _ ⟨hr, hpc, by rw [heq]; rfl, 3, by rw [heq]; rfl, by dsimp only; omega⟩
            (ih (pc + 1 + 2) (Reach.step pc 3 hr hpc (by rw [heq]; rfl) (by omega))
              (by omega))
      · -- F64_TO_I64
        rename_i heq
        split_ifs with h1
        · exact Or.inr ⟨_, rfl, hr, hpc, ⟨3, by rw [heq]; rfl, by omega⟩, by rw [heq]; rfl⟩
        · exact consLine_good bc _ _ ⟨hr, hpc, by rw [heq]; rfl, 3, by rw [heq]; rfl, by dsimp only; omega⟩
            (ih (pc + 1 + 2) (Reach.step pc 3 hr hpc (by rw [heq]; rfl) (by omega))
              (by omega))
      · -- unknown opcode
        refine Or.inr ⟨_, rfl, hr, hpc, rfl, ?_⟩
        unfold knownSize
        split <;> first | rfl | contradiction

/-- C9: for every input buffer, `format_bytecode` either renders a line
for each decoded instruction — each line sound: at a reached boundary,
within the buffer, with the mnemonic of the opcode there — or reports an
error identifying the first malformed instruction: an unknown opcode byte
is an error rather than skipped, and a buffer truncated mid-instruction
produces an error naming the instruction at the truncation point. -/
theorem disassembler_renders_or_reports_first_malformed (bc : Bytecode) :
    (∃ ls, formatBytecode bc = .lines ls ∧ ∀ l ∈ ls, LineOk bc l) ∨
    (∃ e, formatBytecode bc = .error e ∧ FirstMalformed bc e) :=
  fbAux_good bc (bc.length + 1) 0 Reach.zero (by omega)

end Kayton
